import Mathlib

/-!
# The `Graph` facade of qml-ogdf (`src/ogdfplugin/graph.cpp`)

A shallow embedding of the class `Graph`: the OGDF graph it owns, the attribute
arrays, the automatic-layout toggle, the layout lock (the re-entrancy counter)
and the validity flag, together with the facade operations of `graph.cpp`.

Conventions of the embedding.

* Every operation takes the state `Graph` and returns an `Outcome`: the state
  after the call and how the call completed.  A C++ exception leaving
  `m_layout->call` is the completion `thrown`; it unwinds through every caller
  (there is no `try` in `graph.cpp`), keeping the state reached so far.
* Side effects on the collaborators (layout runs, view notifications, `qmlInfo`
  reports, the `autoLayoutChanged` signal, invocations of JavaScript callables)
  are appended to `Graph.trace`; every value written to `m_layoutLock` is
  appended to `Graph.lockHistory`.  Both fields are ghost state: no operation
  reads them.
* JavaScript callables may call back into the facade, and `forall_nodes` /
  `forall_edges` follow the live list, so the recursive operations take a
  `fuel : Nat` bounding nesting depth and loop length (`outOfFuel` otherwise).
* `int` values are `Int`; OGDF indices, which start at `0` and only grow, are
  `Nat`.  Wrap-around of a 32 bit `int` is out of reach of the claims.
* `double` payloads are only stored and copied by this file, never computed
  with, so `Double` is a not-a-number value or an (integer) payload.
* `m_layout` is allocated by the constructor and never reset in `graph.cpp`,
  so the test `m_layout && ...` in `invalidateLayout` is always true; the
  layout algorithm is the parameter `L` of every operation.
-/

namespace QmlOgdf

/-! ## Values of the host language -/

/-- A C++ `double` as far as `graph.cpp` handles it: stored and copied only. -/
inductive Double
  | nan
  | val (v : Int)
  deriving DecidableEq, Repr

/-- The node shapes of OGDF used here; `setNodeAttributes` always writes `shRect`. -/
inductive Shape
  | shRect
  | shRoundedRect
  | shEllipse
  deriving DecidableEq, Repr

/-- First-order JavaScript values: `undefined`, a number, or a plain object whose
properties are kept by their `toNumber()` image. -/
inductive JSData
  | undefined
  | number (d : Double)
  | object (props : List (String × Double))
  deriving DecidableEq, Repr

mutual
/-- A `QJSValue`: first-order data, or a callable.  A callable is given by the
facade calls its body makes on an argument and by the value it returns. -/
inductive QJSValue
  | data (d : JSData)
  | function (body : JSData → List Call) (result : JSData → JSData)
/-- The calls of the facade (spec §4.6) a script can make. -/
inductive Call
  | addNode (attributes : QJSValue)
  | removeNode (index : Int)
  | addEdge (sourceNode targetNode : Int)
  | removeEdge (index : Int)
  | modifyNode (index : Int) (setter : QJSValue)
  | eachNode (callback : QJSValue)
  | eachEdge (callback : QJSValue)
  | clear
  | setAutoLayout (autoLayout : Bool)
end

/-- `QJSValue::isObject`: true for objects, and functions are objects. -/
def QJSValue.isObject : QJSValue → Bool
  | .data (.object _) => true
  | .function _ _ => true
  | _ => false

/-- `QJSValue::isCallable`. -/
def QJSValue.isCallable : QJSValue → Bool
  | .function _ _ => true
  | _ => false

/-- `QJSValue::property(name)`: the property of an object, `undefined` when the
value is not an object or has no such property.  Callables carry no properties of
their own here. -/
def QJSValue.property : QJSValue → String → QJSValue
  | .data (.object props), name =>
    match props.lookup name with
    | some d => .data (.number d)
    | none => .data .undefined
  | _, _ => .data .undefined

/-- `QJSValue::toNumber`: `undefined`, objects and functions convert to NaN. -/
def QJSValue.toNumber : QJSValue → Double
  | .data (.number d) => d
  | _ => .nan

/-- `QJSValue::setProperty` on first-order data: does nothing unless the value
is an object. -/
def JSData.setProperty : JSData → String → Double → JSData
  | .object props, name, d => .object ((props.filter fun p => p.1 ≠ name) ++ [(name, d)])
  | v, _, _ => v

/-! ## The OGDF graph and its attribute arrays -/

/-- An `ogdf::edge`: its index and the indices of its two end nodes. -/
structure EdgeElement where
  index : Nat
  source : Nat
  target : Nat
  deriving DecidableEq, Repr

/-- Modelled from the spec: the OGDF `ogdf::Graph` (spec §4.1 Graph Structure), which
is a library outside `src/`.  Nodes and edges are kept in list order; indices are
handed out from two counters; `clearCount` is ghost state telling handles of
before a `clear()` from those after it. -/
structure OgdfGraph where
  nodes : List Nat
  edges : List EdgeElement
  nodeIdCount : Nat
  edgeIdCount : Nat
  clearCount : Nat
  deriving DecidableEq, Repr

/-- An `ogdf::node` pointer that is not null. -/
structure NodeHandle where
  epoch : Nat
  index : Nat
  deriving DecidableEq, Repr

/-- An `ogdf::edge` pointer that is not null. -/
structure EdgeHandle where
  epoch : Nat
  index : Nat
  deriving DecidableEq, Repr

namespace OgdfGraph

/-- The graph of a fresh `ogdf::Graph`. -/
def empty : OgdfGraph := ⟨[], [], 0, 0, 0⟩

/-- Modelled from the spec: `Graph::newNode` (§4.1 `addNode() -> handle`). -/
def newNode (g : OgdfGraph) : OgdfGraph × NodeHandle :=
  ({ g with nodes := g.nodes ++ [g.nodeIdCount], nodeIdCount := g.nodeIdCount + 1 },
   ⟨g.clearCount, g.nodeIdCount⟩)

/-- Modelled from the spec: `Graph::newEdge` (§4.1 `addEdge(source, target) -> handle`). -/
def newEdge (g : OgdfGraph) (v1 v2 : NodeHandle) : OgdfGraph × EdgeHandle :=
  ({ g with edges := g.edges ++ [⟨g.edgeIdCount, v1.index, v2.index⟩],
            edgeIdCount := g.edgeIdCount + 1 },
   ⟨g.clearCount, g.edgeIdCount⟩)

/-- Modelled from the spec: `Graph::delNode` (§4.1 `removeNode(handle)`, which also
removes all incident edges). -/
def delNode (g : OgdfGraph) (v : NodeHandle) : OgdfGraph :=
  { g with nodes := g.nodes.filter fun n => n ≠ v.index,
           edges := g.edges.filter fun e => e.source ≠ v.index ∧ e.target ≠ v.index }

/-- Modelled from the spec: `Graph::delEdge` (§4.1 `removeEdge(handle)`). -/
def delEdge (g : OgdfGraph) (e : EdgeHandle) : OgdfGraph :=
  { g with edges := g.edges.filter fun x => x.index ≠ e.index }

/-- Modelled from the spec: `Graph::clear` (§4.1 `clear()` removes all nodes and
edges); OGDF restarts the indices. -/
def clear (g : OgdfGraph) : OgdfGraph :=
  ⟨[], [], 0, 0, g.clearCount + 1⟩

/-- Whether a node handle still points to a node of the graph. -/
def liveNode (g : OgdfGraph) (v : NodeHandle) : Bool :=
  v.epoch = g.clearCount ∧ v.index ∈ g.nodes

/-- Whether an edge handle still points to an edge of the graph. -/
def liveEdge (g : OgdfGraph) (e : EdgeHandle) : Bool :=
  e.epoch = g.clearCount ∧ e.index ∈ g.edges.map EdgeElement.index

/-- `G.firstNode()`, null on the empty list. -/
def firstNode (g : OgdfGraph) : Option NodeHandle :=
  g.nodes.head?.map fun n => ⟨g.clearCount, n⟩

/-- `v->succ()` for a live node: the next node in list order, null at the end. -/
def succNode (g : OgdfGraph) (v : NodeHandle) : Option NodeHandle :=
  (g.nodes.dropWhile fun n => n ≠ v.index).tail.head?.map fun n => ⟨g.clearCount, n⟩

/-- `G.firstEdge()`, null on the empty list. -/
def firstEdge (g : OgdfGraph) : Option EdgeHandle :=
  g.edges.head?.map fun e => ⟨g.clearCount, e.index⟩

/-- `e->succ()` for a live edge: the next edge in list order, null at the end. -/
def succEdge (g : OgdfGraph) (e : EdgeHandle) : Option EdgeHandle :=
  (g.edges.dropWhile fun x => x.index ≠ e.index).tail.head?.map
    fun x => ⟨g.clearCount, x.index⟩

end OgdfGraph

/-- Modelled from the spec: `NodeModel::node(index)` of `nodemodel.cpp` (§4.2 Identity
Registry, `resolve(externalIndex) -> handle | NotFound`); `none` is the null pointer. -/
def NodeModel.node (g : OgdfGraph) (index : Int) : Option NodeHandle :=
  if 0 ≤ index ∧ index.toNat ∈ g.nodes then some ⟨g.clearCount, index.toNat⟩ else none

/-- Modelled from the spec: `EdgeModel::edge(index)` of `edgemodel.cpp` (§4.2 Identity
Registry); `none` is the null pointer. -/
def EdgeModel.edge (g : OgdfGraph) (index : Int) : Option EdgeHandle :=
  if 0 ≤ index ∧ index.toNat ∈ g.edges.map EdgeElement.index
  then some ⟨g.clearCount, index.toNat⟩ else none

/-- The `ogdf::GraphAttributes` arrays written by `graph.cpp`, indexed by node index. -/
structure GraphAttributes where
  x : Nat → Double
  y : Nat → Double
  width : Nat → Double
  height : Nat → Double
  shape : Nat → Shape

/-- The attribute arrays of a fresh `GraphAttributes`. -/
def GraphAttributes.init : GraphAttributes :=
  ⟨fun _ => .val 0, fun _ => .val 0, fun _ => .val 0, fun _ => .val 0, fun _ => .shRect⟩

/-- What `m_layout->call(m_attributes)` did: it returned, or it threw; either way
it leaves some attribute arrays behind. -/
inductive LayoutResult
  | done (attributes : GraphAttributes)
  | failed (attributes : GraphAttributes)

/-- The external layout function `layout(graph, attributes)`; it cannot change the
topology. -/
abbrev GraphLayout := OgdfGraph → GraphAttributes → LayoutResult

/-- A layout function that never fails. -/
def GraphLayout.total (f : OgdfGraph → GraphAttributes → GraphAttributes) : GraphLayout :=
  fun g a => .done (f g a)

/-! ## The state of a `Graph` object and its effects -/

/-- The effects of the facade on its collaborators. -/
inductive Event
  | layoutRun
  | nodesChanged
  | edgesChanged
  | autoLayoutChanged
  | info (message : String) (arguments : List Int)
  | called (argument : JSData)
  deriving DecidableEq, Repr

/-- The members of class `Graph` and the two ghost logs. -/
structure Graph where
  m_graph : OgdfGraph
  m_attributes : GraphAttributes
  m_autoLayout : Bool
  m_layoutLock : Int
  m_layoutValid : Bool
  trace : List Event
  lockHistory : List Int

/-- How a call ended. -/
inductive Completion (α : Type)
  | normal (value : α)
  | thrown
  | undefinedBehaviour
  | outOfFuel
  deriving DecidableEq, Repr

/-- The state after a call and how the call ended. -/
structure Outcome (α : Type) where
  graph : Graph
  completion : Completion α

/-- Sequencing: continue with `k` after a normal completion, otherwise unwind. -/
def Outcome.andThen {α β : Type} (r : Outcome α) (k : Graph → α → Outcome β) : Outcome β :=
  match r.completion with
  | .normal a => k r.graph a
  | .thrown => ⟨r.graph, .thrown⟩
  | .undefinedBehaviour => ⟨r.graph, .undefinedBehaviour⟩
  | .outOfFuel => ⟨r.graph, .outOfFuel⟩

namespace Graph

/-- `Graph::Graph`: lines 22-29. -/
def new : Graph :=
  { m_graph := OgdfGraph.empty, m_attributes := GraphAttributes.init, m_autoLayout := true,
    m_layoutLock := 0, m_layoutValid := false, trace := [], lockHistory := [] }

/-- Append an effect to the trace. -/
def emit (s : Graph) (e : Event) : Graph :=
  { s with trace := s.trace ++ [e] }

/-- Assign `m_layoutLock`, logging the value. -/
def setLock (s : Graph) (v : Int) : Graph :=
  { s with m_layoutLock := v, lockHistory := s.lockHistory ++ [v] }

/-- `Graph::invalidateLayout`: lines 233-242. -/
def invalidateLayout (L : GraphLayout) (s : Graph) : Outcome Unit :=
  let s1 : Graph := { s with m_layoutValid := false }
  if s1.m_layoutLock = 0 then
    match L s1.m_graph s1.m_attributes with
    | .failed a => ⟨({ s1 with m_attributes := a }).emit .layoutRun, .thrown⟩
    | .done a =>
      let s2 := ({ s1 with m_attributes := a }).emit .layoutRun
      let s3 := s2.emit .nodesChanged
      let s4 := s3.emit .edgesChanged
      ⟨{ s4 with m_layoutValid := true }, .normal ()⟩
  else ⟨s1, .normal ()⟩

/-- `Graph::setAutoLayout`: lines 40-52. -/
def setAutoLayout (L : GraphLayout) (s : Graph) (autoLayout : Bool) : Outcome Unit :=
  if autoLayout ≠ s.m_autoLayout then
    let s1 : Graph := { s with m_autoLayout := autoLayout }
    let s2 := if s1.m_autoLayout then s1.setLock (s1.m_layoutLock - 1)
              else s1.setLock (s1.m_layoutLock + 1)
    let s3 := s2.emit .autoLayoutChanged
    invalidateLayout L s3
  else ⟨s, .normal ()⟩

/-- `Graph::nodeAttributes`: lines 244-252.  The local `QJSValue object;` is
default-constructed, hence `undefined`. -/
def nodeAttributes (s : Graph) (v : NodeHandle) : JSData :=
  let object := JSData.undefined
  let object := object.setProperty "x" (s.m_attributes.x v.index)
  let object := object.setProperty "y" (s.m_attributes.y v.index)
  let object := object.setProperty "width" (s.m_attributes.width v.index)
  let object := object.setProperty "height" (s.m_attributes.height v.index)
  object

/-- `Graph::setNodeAttributes`: lines 254-261. -/
def setNodeAttributes (s : Graph) (v : NodeHandle) (object : QJSValue) : Graph :=
  { s with m_attributes :=
    { x := Function.update s.m_attributes.x v.index (object.property "x").toNumber
      y := Function.update s.m_attributes.y v.index (object.property "y").toNumber
      width := Function.update s.m_attributes.width v.index (object.property "width").toNumber
      height := Function.update s.m_attributes.height v.index (object.property "height").toNumber
      shape := Function.update s.m_attributes.shape v.index .shRect } }

/-- `Graph::addNode`: lines 124-130. -/
def addNode (L : GraphLayout) (s : Graph) (attributes : QJSValue) : Outcome Int :=
  let (g, v) := s.m_graph.newNode
  let s1 : Graph := { s with m_graph := g }
  let s2 := s1.setNodeAttributes v attributes
  (invalidateLayout L s2).andThen fun s3 _ => ⟨s3, .normal (v.index : Int)⟩

/-- `Graph::removeNode`: lines 172-181. -/
def removeNode (L : GraphLayout) (s : Graph) (index : Int) : Outcome Unit :=
  match NodeModel.node s.m_graph index with
  | none => ⟨s.emit (.info "Can not remove node with index" [index]), .normal ()⟩
  | some v => invalidateLayout L { s with m_graph := s.m_graph.delNode v }

/-- `Graph::addEdge`: lines 183-195. -/
def addEdge (L : GraphLayout) (s : Graph) (sourceNode targetNode : Int) : Outcome Int :=
  match NodeModel.node s.m_graph sourceNode, NodeModel.node s.m_graph targetNode with
  | some v1, some v2 =>
    let (g, e) := s.m_graph.newEdge v1 v2
    (invalidateLayout L { s with m_graph := g }).andThen fun s1 _ =>
      ⟨s1, .normal (e.index : Int)⟩
  | _, _ => ⟨s.emit (.info "One node index does not exist" []), .normal (-1)⟩

/-- `Graph::removeEdge`: lines 217-226. -/
def removeEdge (L : GraphLayout) (s : Graph) (index : Int) : Outcome Unit :=
  match EdgeModel.edge s.m_graph index with
  | none => ⟨s.emit (.info "Can not remove egde with index" [index]), .normal ()⟩
  | some e => invalidateLayout L { s with m_graph := s.m_graph.delEdge e }

/-- `Graph::clear`: lines 228-231. -/
def clear (s : Graph) : Outcome Unit :=
  ⟨{ s with m_graph := s.m_graph.clear }, .normal ()⟩

/-- Drop the value a call returned. -/
def discard {α : Type} (r : Outcome α) : Outcome Unit :=
  r.andThen fun s _ => ⟨s, .normal ()⟩

mutual
/-- One facade call made by a script. -/
def call : Nat → GraphLayout → Graph → Call → Outcome Unit
  | 0, _, s, _ => ⟨s, .outOfFuel⟩
  | _ + 1, L, s, .addNode attributes => discard (addNode L s attributes)
  | _ + 1, L, s, .removeNode index => removeNode L s index
  | _ + 1, L, s, .addEdge sourceNode targetNode => discard (addEdge L s sourceNode targetNode)
  | _ + 1, L, s, .removeEdge index => removeEdge L s index
  | fuel + 1, L, s, .modifyNode index setter => modifyNode fuel L s index setter
  | fuel + 1, L, s, .eachNode callback => eachNode fuel L s callback
  | fuel + 1, L, s, .eachEdge callback => eachEdge fuel L s callback
  | _ + 1, _, s, .clear => clear s
  | _ + 1, L, s, .setAutoLayout autoLayout => setAutoLayout L s autoLayout
/-- `QJSValue::call` with one argument: the body's facade calls run in order, then
the callable's value is returned; calling what is not callable gives `undefined`. -/
def jsCall : Nat → GraphLayout → Graph → QJSValue → JSData → Outcome JSData
  | 0, _, s, _, _ => ⟨s, .outOfFuel⟩
  | fuel + 1, L, s, .function body result, argument =>
    ((body argument).foldl
        (fun (r : Outcome Unit) c => r.andThen fun g _ => call fuel L g c)
        ⟨s.emit (.called argument), .normal ()⟩).andThen
      fun g _ => ⟨g, .normal (result argument)⟩
  | _ + 1, _, s, .data _, _ => ⟨s, .normal .undefined⟩
/-- `Graph::modifyNode`: lines 152-170. -/
def modifyNode : Nat → GraphLayout → Graph → Int → QJSValue → Outcome Unit
  | 0, _, s, _, _ => ⟨s, .outOfFuel⟩
  | fuel + 1, L, s, index, setter =>
    match NodeModel.node s.m_graph index with
    | none => ⟨s.emit (.info "Can not modify node with index" [index]), .normal ()⟩
    | some v =>
      if setter.isObject then
        invalidateLayout L (s.setNodeAttributes v setter)
      else if setter.isCallable then
        (jsCall fuel L s setter (s.nodeAttributes v)).andThen fun s1 ret =>
          if s1.m_graph.liveNode v then
            invalidateLayout L (s1.setNodeAttributes v (.data ret))
          else ⟨s1, .undefinedBehaviour⟩
      else ⟨s.emit (.info "Expected object or function as second argument" []), .normal ()⟩
/-- `Graph::eachNode`: lines 132-150. -/
def eachNode : Nat → GraphLayout → Graph → QJSValue → Outcome Unit
  | 0, _, s, _ => ⟨s, .outOfFuel⟩
  | fuel + 1, L, s, callback =>
    if callback.isCallable then
      let s1 := s.setLock (s.m_layoutLock + 1)
      (forall_nodes fuel L s1 callback s1.m_graph.firstNode).andThen fun s2 _ =>
        let s3 := s2.setLock (s2.m_layoutLock - 1)
        if !s3.m_layoutValid then invalidateLayout L s3 else ⟨s3, .normal ()⟩
    else ⟨s.emit (.info "Expected function as first argument" []), .normal ()⟩
/-- The loop `forall_nodes (v, m_graph)` of `eachNode` (lines 139-142), standing at
`v`; following `v->succ()` of a node the callback deleted is undefined. -/
def forall_nodes : Nat → GraphLayout → Graph → QJSValue → Option NodeHandle → Outcome Unit
  | 0, _, s, _, _ => ⟨s, .outOfFuel⟩
  | _ + 1, _, s, _, none => ⟨s, .normal ()⟩
  | fuel + 1, L, s, callback, some v =>
    (jsCall fuel L s callback (.number (.val v.index))).andThen fun s1 _ =>
      if s1.m_graph.liveNode v then
        forall_nodes fuel L s1 callback (s1.m_graph.succNode v)
      else ⟨s1, .undefinedBehaviour⟩
/-- `Graph::eachEdge`: lines 197-215. -/
def eachEdge : Nat → GraphLayout → Graph → QJSValue → Outcome Unit
  | 0, _, s, _ => ⟨s, .outOfFuel⟩
  | fuel + 1, L, s, callback =>
    if callback.isCallable then
      let s1 := s.setLock (s.m_layoutLock + 1)
      (forall_edges fuel L s1 callback s1.m_graph.firstEdge).andThen fun s2 _ =>
        let s3 := s2.setLock (s2.m_layoutLock - 1)
        if !s3.m_layoutValid then invalidateLayout L s3 else ⟨s3, .normal ()⟩
    else ⟨s.emit (.info "Expected function(index) as first argument" []), .normal ()⟩
/-- The loop `forall_edges (e, m_graph)` of `eachEdge` (lines 204-207), standing at
`e`; following `e->succ()` of an edge the callback deleted is undefined. -/
def forall_edges : Nat → GraphLayout → Graph → QJSValue → Option EdgeHandle → Outcome Unit
  | 0, _, s, _, _ => ⟨s, .outOfFuel⟩
  | _ + 1, _, s, _, none => ⟨s, .normal ()⟩
  | fuel + 1, L, s, callback, some e =>
    (jsCall fuel L s callback (.number (.val e.index))).andThen fun s1 _ =>
      if s1.m_graph.liveEdge e then
        forall_edges fuel L s1 callback (s1.m_graph.succEdge e)
      else ⟨s1, .undefinedBehaviour⟩
end

/-- A script: facade calls made one after the other, stopping at the first call
that does not complete normally. -/
def callAll (fuel : Nat) (L : GraphLayout) (s : Graph) (cs : List Call) : Outcome Unit :=
  cs.foldl (fun (r : Outcome Unit) c => r.andThen fun g _ => call fuel L g c) ⟨s, .normal ()⟩

end Graph

end QmlOgdf

namespace QmlOgdf

/-! ## Specification vocabulary -/

/-- Forget the value a call returned, keeping how it ended. -/
def Completion.erase {α : Type} : Completion α → Completion Unit
  | .normal _ => .normal ()
  | .thrown => .thrown
  | .undefinedBehaviour => .undefinedBehaviour
  | .outOfFuel => .outOfFuel

/-- Number of layout runs recorded in a trace. -/
def layoutRuns (t : List Event) : Nat := t.count .layoutRun

/-- Number of `changed` notifications of the node view recorded in a trace. -/
def nodeNotifications (t : List Event) : Nat := t.count .nodesChanged

/-- Number of `changed` notifications of the edge view recorded in a trace. -/
def edgeNotifications (t : List Event) : Nat := t.count .edgesChanged

/-- No dangling edges: both ends of every edge are nodes of the graph. -/
def OgdfGraph.EdgesLive (g : OgdfGraph) : Prop :=
  ∀ e ∈ g.edges, e.source ∈ g.nodes ∧ e.target ∈ g.nodes

/-- The layout algorithm that leaves the attributes as they are. -/
def identityLayout : GraphLayout := GraphLayout.total fun _ a => a

/-- A layout algorithm that always fails, leaving the attributes as they are. -/
def failingLayout : GraphLayout := fun _ a => .failed a

/-- The five mutations of the facade (spec §4.6). -/
def Call.isMutation : Call → Bool
  | .addNode _ => true
  | .removeNode _ => true
  | .addEdge _ _ => true
  | .removeEdge _ => true
  | .modifyNode _ _ => true
  | _ => false

/-- The four topology calls of the facade. -/
def Call.isTopologyCall : Call → Bool
  | .addNode _ => true
  | .removeNode _ => true
  | .addEdge _ _ => true
  | .removeEdge _ => true
  | _ => false

/-- The number of bulk iterations in progress as the counter tells it: `m_layoutLock`
minus the one unit held while automatic layout is off. -/
def Graph.depth (s : Graph) : Int :=
  s.m_layoutLock - (if s.m_autoLayout then 0 else 1)

/-! ## A rule induction for the facade

`Rules L P` lists what a relation `P before after completion` has to satisfy on the
straight-line pieces of `graph.cpp`; `Rules.call` and its companions then give `P`
for every call, whatever the scripts do. -/

/-- Closure conditions for a relation between the state before a piece of code, the
state after it and the way it ended. -/
structure Rules (L : GraphLayout) (P : Graph → Graph → Completion Unit → Prop) : Prop where
  refl : ∀ s, P s s (.normal ())
  stopFuel : ∀ s, P s s .outOfFuel
  stopUndefined : ∀ s, P s s .undefinedBehaviour
  trans : ∀ s s1 s2 k, P s s1 (.normal ()) → P s1 s2 k → P s s2 k
  info : ∀ s m a, P s (s.emit (.info m a)) (.normal ())
  called : ∀ s d, P s (s.emit (.called d)) (.normal ())
  invalidateLayout : ∀ s, P s (Graph.invalidateLayout L s).graph
    (Graph.invalidateLayout L s).completion
  setAutoLayout : ∀ s b, P s (Graph.setAutoLayout L s b).graph
    (Graph.setAutoLayout L s b).completion
  addNode : ∀ s a, P s (Graph.addNode L s a).graph (Graph.addNode L s a).completion.erase
  removeNode : ∀ s i, P s (Graph.removeNode L s i).graph (Graph.removeNode L s i).completion
  addEdge : ∀ s a b, P s (Graph.addEdge L s a b).graph (Graph.addEdge L s a b).completion.erase
  removeEdge : ∀ s i, P s (Graph.removeEdge L s i).graph (Graph.removeEdge L s i).completion
  clear : ∀ s, P s (Graph.clear s).graph (.normal ())
  setNodeAttributes : ∀ s v o, P s (s.setNodeAttributes v o) (.normal ())
  leave : ∀ s s2, P (s.setLock (s.m_layoutLock + 1)) s2 (.normal ()) →
    P s (s2.setLock (s2.m_layoutLock - 1)) (.normal ())
  unwind : ∀ s s2 k, k ≠ .normal () → P (s.setLock (s.m_layoutLock + 1)) s2 k → P s s2 k

/-- The straight-line part of `setAutoLayout` (lines 43-49) when the setting changes:
the toggle is stored, the counter moved, the signal sent. -/
def Graph.toggled (s : Graph) (autoLayout : Bool) : Graph :=
  let s1 : Graph := { s with m_autoLayout := autoLayout }
  let s2 := if s1.m_autoLayout then s1.setLock (s1.m_layoutLock - 1)
            else s1.setLock (s1.m_layoutLock + 1)
  s2.emit .autoLayoutChanged

/-- Closure conditions on the elementary steps of `graph.cpp`; they give `Rules`. -/
structure MicroRules (L : GraphLayout) (P : Graph → Graph → Completion Unit → Prop) : Prop where
  refl : ∀ s, P s s (.normal ())
  stopFuel : ∀ s, P s s .outOfFuel
  stopUndefined : ∀ s, P s s .undefinedBehaviour
  trans : ∀ s s1 s2 k, P s s1 (.normal ()) → P s1 s2 k → P s s2 k
  info : ∀ s m a, P s (s.emit (.info m a)) (.normal ())
  called : ∀ s d, P s (s.emit (.called d)) (.normal ())
  invalidateLayout : ∀ s, P s (Graph.invalidateLayout L s).graph
    (Graph.invalidateLayout L s).completion
  toggle : ∀ s b, b ≠ s.m_autoLayout → P s (s.toggled b) (.normal ())
  newNode : ∀ s : Graph, P s { s with m_graph := s.m_graph.newNode.1 } (.normal ())
  delNode : ∀ (s : Graph) i v, NodeModel.node s.m_graph i = some v →
    P s { s with m_graph := s.m_graph.delNode v } (.normal ())
  newEdge : ∀ (s : Graph) a b v1 v2, NodeModel.node s.m_graph a = some v1 →
    NodeModel.node s.m_graph b = some v2 →
    P s { s with m_graph := (s.m_graph.newEdge v1 v2).1 } (.normal ())
  delEdge : ∀ (s : Graph) i e, EdgeModel.edge s.m_graph i = some e →
    P s { s with m_graph := s.m_graph.delEdge e } (.normal ())
  clear : ∀ s : Graph, P s { s with m_graph := s.m_graph.clear } (.normal ())
  setNodeAttributes : ∀ s v o, P s (s.setNodeAttributes v o) (.normal ())
  leave : ∀ s s2, P (s.setLock (s.m_layoutLock + 1)) s2 (.normal ()) →
    P s (s2.setLock (s2.m_layoutLock - 1)) (.normal ())
  unwind : ∀ s s2 k, k ≠ .normal () → P (s.setLock (s.m_layoutLock + 1)) s2 k → P s s2 k

/-! ## Sample states -/

/-- The `undefined` value, the default argument of `addNode()`. -/
def undefinedValue : QJSValue := .data .undefined

/-- A fresh graph after two `addNode()` calls: nodes `0` and `1`, laid out. -/
def twoNodes : Graph :=
  (Graph.addNode identityLayout (Graph.addNode identityLayout Graph.new undefinedValue).graph
    undefinedValue).graph

/-- The graph `twoNodes` after `addEdge(0, 1)`: one edge, of index `0`. -/
def twoNodesOneEdge : Graph := (Graph.addEdge identityLayout twoNodes 0 1).graph

/-! ## The layout controller as the spec words it (§4.4) -/

/-- Spec §4.4: `suspend()` increments the counter. -/
def Spec.suspend (s : Graph) : Graph :=
  s.setLock (s.m_layoutLock + 1)

/-- Spec §4.4: `resume()` decrements the counter and then calls `invalidate()` if the
state is currently Invalid. -/
def Spec.resume (L : GraphLayout) (s : Graph) : Outcome Unit :=
  let s1 := s.setLock (s.m_layoutLock - 1)
  if !s1.m_layoutValid then Graph.invalidateLayout L s1 else ⟨s1, .normal ()⟩

/-- The state in which the visitor of an `eachNode` over `twoNodes` is entered: the
counter is 1 and the validity flag is still true. -/
def insideVisitor : Graph := twoNodes.setLock (twoNodes.m_layoutLock + 1)

/-- A script on a fresh graph: two `addNode()` calls, then `eachNode` with a visitor
that calls `clear()`. -/
def clearInVisitor : List Call :=
  [.addNode undefinedValue, .addNode undefinedValue,
   .eachNode (.function (fun _ => [.clear]) id)]

/-- Number of `autoLayoutChanged` signals in a trace: how often the automatic-layout
setting was toggled. -/
def toggles (t : List Event) : Nat := t.count .autoLayoutChanged

/-- Every value ever written to the counter is non-negative. -/
def Graph.LockHistoryNonneg (s : Graph) : Prop := ∀ v ∈ s.lockHistory, 0 ≤ v

/-- The batch of C1 up to its last mutation: on a fresh graph `setAutoLayout(false)`,
then the calls `muts`. -/
def batchBefore (L : GraphLayout) (fuel : Nat) (muts : List Call) : Outcome Unit :=
  Graph.callAll fuel L (Graph.setAutoLayout L Graph.new false).graph muts

/-- The batch of C1 closed by `setAutoLayout(true)`. -/
def batchAfter (L : GraphLayout) (fuel : Nat) (muts : List Call) : Outcome Unit :=
  Graph.setAutoLayout L (batchBefore L fuel muts).graph true

/-- The invocations of a visitor on the elements of the given indices, in order. -/
def visits (indices : List Nat) : List Event :=
  indices.map fun (n : Nat) => Event.called (.number (.val (n : Int)))

/-- Well-formedness of the OGDF graph: indices are unique and below the counters they
were handed out from. -/
def OgdfGraph.WellFormed (g : OgdfGraph) : Prop :=
  g.nodes.Nodup ∧ (∀ n ∈ g.nodes, n < g.nodeIdCount) ∧
  (g.edges.map EdgeElement.index).Nodup ∧ (∀ e ∈ g.edges, e.index < g.edgeIdCount)

/-- The value of the counter after the writes `written`, starting from `start`. -/
def lastWritten (start : Int) (written : List Int) : Int :=
  written.foldl (fun _ v => v) start

/-! ## Attribute records, generators and reachable states -/

/-- A replacement record that gives all four fields. -/
def fullRecord : QJSValue :=
  .data (.object [("x", .val 1), ("y", .val 2), ("width", .val 3), ("height", .val 4)])

/-- A replacement record that gives `x` only. -/
def onlyX : QJSValue := .data (.object [("x", .val 5)])

/-- The identity function of the host language: it calls nothing and returns its
argument. -/
def identityFunction : QJSValue := .function (fun _ => []) id

/-- A fresh graph after `addNode(fullRecord)`: node 0 at (1, 2) with size 3 x 4,
counter 0, Valid. -/
def oneNode : Graph := (Graph.addNode identityLayout Graph.new fullRecord).graph

/-- The graph `oneNode` after `setAutoLayout(false)`: the counter is 1. -/
def oneNodeManual : Graph := (Graph.setAutoLayout identityLayout oneNode false).graph

/-- The edges of the graph that have the node of index `n` as source or target. -/
def OgdfGraph.incidentEdges (g : OgdfGraph) (n : Nat) : List EdgeElement :=
  g.edges.filter fun e => e.source = n ∨ e.target = n

/-- The generators of `ogdf/basic/graph_generators.h` used by the three wrappers, which
are outside `src/`: each is given the graph and two counts, the number of nodes first
and the number of edges second; `randomSimpleGraph` also tells whether it succeeded. -/
structure Generators where
  randomGraph : OgdfGraph → Int → Int → OgdfGraph
  randomSimpleGraph : OgdfGraph → Int → Int → OgdfGraph × Bool
  randomBiconnectedGraph : OgdfGraph → Int → Int → OgdfGraph

/-- `Graph::randomGraph`: lines 70-74. -/
def Graph.randomGraph (G : Generators) (L : GraphLayout) (s : Graph) (n m : Int) :
    Outcome Unit :=
  Graph.invalidateLayout L { s with m_graph := G.randomGraph s.m_graph m n }

/-- `Graph::randomSimpleGraph`: lines 76-84. -/
def Graph.randomSimpleGraph (G : Generators) (L : GraphLayout) (s : Graph) (n m : Int) :
    Outcome Unit :=
  let r := G.randomSimpleGraph s.m_graph n m
  let s1 : Graph := { s with m_graph := r.1 }
  if r.2 then Graph.invalidateLayout L s1
  else ⟨s1.emit (.info "Can not generate a simple graph with nodes and edges" [n, m]),
    .normal ()⟩

/-- `Graph::randomBiconnectedGraph`: lines 86-90. -/
def Graph.randomBiconnectedGraph (G : Generators) (L : GraphLayout) (s : Graph) (n m : Int) :
    Outcome Unit :=
  Graph.invalidateLayout L { s with m_graph := G.randomBiconnectedGraph s.m_graph m n }

/-- The graph of `k` isolated nodes `0 .. k-1`. -/
def isolatedNodes (k : Int) : OgdfGraph :=
  ⟨List.range k.toNat, [], k.toNat, 0, 0⟩

/-- Sample generators that make as many isolated nodes as their first count says and
succeed always. -/
def sampleGenerators : Generators :=
  { randomGraph := fun _ first _ => isolatedNodes first
    randomSimpleGraph := fun _ first _ => (isolatedNodes first, true)
    randomBiconnectedGraph := fun _ first _ => isolatedNodes first }

theorem Completion.erase_unit (c : Completion Unit) : c.erase = c := by
  cases c <;> rfl

theorem Outcome.andThen_normal {α β : Type} (g : Graph) (a : α) (k : Graph → α → Outcome β) :
    (Outcome.mk g (.normal a)).andThen k = k g a := rfl

theorem Outcome.andThen_eq {α β : Type} (r : Outcome α) (k : Graph → α → Outcome β) :
    (∃ a, r.completion = .normal a ∧ r.andThen k = k r.graph a) ∨
    ((∀ a, r.completion ≠ .normal a) ∧ (r.andThen k).graph = r.graph ∧
      (r.andThen k).completion.erase = r.completion.erase) := by
  obtain ⟨g, c⟩ := r
  cases c with
  | normal a => exact Or.inl ⟨a, rfl, rfl⟩
  | thrown => exact Or.inr ⟨(fun _ h => nomatch h), rfl, rfl⟩
  | undefinedBehaviour => exact Or.inr ⟨(fun _ h => nomatch h), rfl, rfl⟩
  | outOfFuel => exact Or.inr ⟨(fun _ h => nomatch h), rfl, rfl⟩

theorem Rules.andThen {L : GraphLayout} {P : Graph → Graph → Completion Unit → Prop}
    (R : Rules L P) {α β : Type} (s : Graph) (r : Outcome α) (k : Graph → α → Outcome β)
    (h1 : P s r.graph r.completion.erase)
    (h2 : ∀ a, r.completion = .normal a → P r.graph (k r.graph a).graph (k r.graph a).completion.erase) :
    P s (r.andThen k).graph (r.andThen k).completion.erase := by
  rcases Outcome.andThen_eq r k with ⟨a, ha, hk⟩ | ⟨_, hg, hc⟩
  · rw [hk]
    rw [ha] at h1
    exact R.trans _ _ _ _ h1 (h2 a ha)
  · rw [hg, hc]; exact h1

theorem Rules.foldl {L : GraphLayout} {P : Graph → Graph → Completion Unit → Prop}
    (R : Rules L P) (step : Graph → Call → Outcome Unit)
    (hstep : ∀ s c, P s (step s c).graph (step s c).completion) :
    ∀ (cs : List Call) (s : Graph) (r : Outcome Unit), P s r.graph r.completion →
      P s (cs.foldl (fun (r : Outcome Unit) c => r.andThen fun g _ => step g c) r).graph
        (cs.foldl (fun (r : Outcome Unit) c => r.andThen fun g _ => step g c) r).completion := by
  intro cs
  induction cs with
  | nil => intro s r h; exact h
  | cons c cs ih =>
    intro s r h
    rw [List.foldl_cons]
    apply ih
    have := R.andThen s r (fun g _ => step g c) (by rw [Completion.erase_unit]; exact h)
      (fun _ _ => by rw [Completion.erase_unit]; exact hstep _ _)
    rw [Completion.erase_unit] at this
    exact this

/-- Soundness of the rule induction: a relation closed under `Rules` holds of every
operation of the facade, for every amount of fuel. -/
theorem Rules.sound {L : GraphLayout} {P : Graph → Graph → Completion Unit → Prop}
    (R : Rules L P) : ∀ fuel : Nat,
    (∀ s c, P s (Graph.call fuel L s c).graph (Graph.call fuel L s c).completion) ∧
    (∀ s f a, P s (Graph.jsCall fuel L s f a).graph (Graph.jsCall fuel L s f a).completion.erase) ∧
    (∀ s i o, P s (Graph.modifyNode fuel L s i o).graph (Graph.modifyNode fuel L s i o).completion) ∧
    (∀ s cb, P s (Graph.eachNode fuel L s cb).graph (Graph.eachNode fuel L s cb).completion) ∧
    (∀ s cb v, P s (Graph.forall_nodes fuel L s cb v).graph
      (Graph.forall_nodes fuel L s cb v).completion) ∧
    (∀ s cb, P s (Graph.eachEdge fuel L s cb).graph (Graph.eachEdge fuel L s cb).completion) ∧
    (∀ s cb e, P s (Graph.forall_edges fuel L s cb e).graph
      (Graph.forall_edges fuel L s cb e).completion) := by
  intro fuel
  induction fuel with
  | zero =>
    refine ⟨?_, ?_, ?_, ?_, ?_, ?_, ?_⟩
    · intro s c; cases c <;> simp only [Graph.call] <;> exact R.stopFuel s
    · intro s f a; cases f <;> simp only [Graph.jsCall] <;> exact R.stopFuel s
    · intro s i o; simp only [Graph.modifyNode]; exact R.stopFuel s
    · intro s cb; simp only [Graph.eachNode]; exact R.stopFuel s
    · intro s cb v; cases v <;> simp only [Graph.forall_nodes] <;> exact R.stopFuel s
    · intro s cb; simp only [Graph.eachEdge]; exact R.stopFuel s
    · intro s cb e; cases e <;> simp only [Graph.forall_edges] <;> exact R.stopFuel s
  | succ n ih =>
    obtain ⟨ihCall, ihJs, ihModify, ihEachNode, ihNodes, ihEachEdge, ihEdges⟩ := ih
    have unit : ∀ (s : Graph) (r : Outcome Unit), P s r.graph r.completion.erase →
        P s r.graph r.completion := fun s r h => by rw [Completion.erase_unit] at h; exact h
    have unit2 : ∀ (s : Graph) (r : Outcome Unit), P s r.graph r.completion →
        P s r.graph r.completion.erase := fun s r h => by rw [Completion.erase_unit]; exact h
    refine ⟨?_, ?_, ?_, ?_, ?_, ?_, ?_⟩
    · intro s c
      cases c with
      | addNode a =>
        simp only [Graph.call, Graph.discard]
        apply unit
        exact R.andThen s _ _ (R.addNode s a) (fun _ _ => R.refl _)
      | removeNode i => simp only [Graph.call]; exact R.removeNode s i
      | addEdge a b =>
        simp only [Graph.call, Graph.discard]
        apply unit
        exact R.andThen s _ _ (R.addEdge s a b) (fun _ _ => R.refl _)
      | removeEdge i => simp only [Graph.call]; exact R.removeEdge s i
      | modifyNode i o => simp only [Graph.call]; exact ihModify s i o
      | eachNode cb => simp only [Graph.call]; exact ihEachNode s cb
      | eachEdge cb => simp only [Graph.call]; exact ihEachEdge s cb
      | clear => simp only [Graph.call]; exact R.clear s
      | setAutoLayout b => simp only [Graph.call]; exact R.setAutoLayout s b
    · intro s f a
      cases f with
      | data d => simp only [Graph.jsCall]; exact R.refl s
      | function body result =>
        simp only [Graph.jsCall]
        apply R.andThen
        · apply unit2
          exact R.foldl (Graph.call n L) ihCall _ s _ (R.called s a)
        · intro _ _; exact R.refl _
    · intro s i o
      simp only [Graph.modifyNode]
      cases NodeModel.node s.m_graph i with
      | none => exact R.info s _ _
      | some v =>
        simp only []
        split
        · exact R.trans _ _ _ _ (R.setNodeAttributes s v o) (R.invalidateLayout _)
        · split
          · apply unit
            apply R.andThen s _ _ (ihJs s o _)
            intro ret _
            apply unit2
            split
            · exact R.trans _ _ _ _ (R.setNodeAttributes _ v _) (R.invalidateLayout _)
            · exact R.stopUndefined _
          · exact R.info s _ _
    · intro s cb
      simp only [Graph.eachNode]
      split
      · rcases Outcome.andThen_eq (Graph.forall_nodes n L (s.setLock (s.m_layoutLock + 1)) cb
            (s.setLock (s.m_layoutLock + 1)).m_graph.firstNode)
          (fun s2 _ =>
            if (!(s2.setLock (s2.m_layoutLock - 1)).m_layoutValid) = true
            then Graph.invalidateLayout L (s2.setLock (s2.m_layoutLock - 1))
            else ⟨s2.setLock (s2.m_layoutLock - 1), .normal ()⟩) with ⟨a, ha, hk⟩ | ⟨hn, hg, hc⟩
        · rw [hk]
          have h := ihNodes (s.setLock (s.m_layoutLock + 1)) cb
            (s.setLock (s.m_layoutLock + 1)).m_graph.firstNode
          rw [ha] at h
          have h2 := R.leave s _ h
          split
          · exact R.trans _ _ _ _ h2 (R.invalidateLayout _)
          · exact h2
        · rw [Completion.erase_unit, Completion.erase_unit] at hc
          rw [hg, hc]
          apply R.unwind s _ _ (fun h => hn () h)
          exact ihNodes _ cb _
      · exact R.info s _ _
    · intro s cb v
      cases v with
      | none => simp only [Graph.forall_nodes]; exact R.refl s
      | some v =>
        simp only [Graph.forall_nodes]
        apply unit
        apply R.andThen s _ _ (ihJs s cb _)
        intro _ _
        apply unit2
        split
        · exact ihNodes _ cb _
        · exact R.stopUndefined _
    · intro s cb
      simp only [Graph.eachEdge]
      split
      · rcases Outcome.andThen_eq (Graph.forall_edges n L (s.setLock (s.m_layoutLock + 1)) cb
            (s.setLock (s.m_layoutLock + 1)).m_graph.firstEdge)
          (fun s2 _ =>
            if (!(s2.setLock (s2.m_layoutLock - 1)).m_layoutValid) = true
            then Graph.invalidateLayout L (s2.setLock (s2.m_layoutLock - 1))
            else ⟨s2.setLock (s2.m_layoutLock - 1), .normal ()⟩) with ⟨a, ha, hk⟩ | ⟨hn, hg, hc⟩
        · rw [hk]
          have h := ihEdges (s.setLock (s.m_layoutLock + 1)) cb
            (s.setLock (s.m_layoutLock + 1)).m_graph.firstEdge
          rw [ha] at h
          have h2 := R.leave s _ h
          split
          · exact R.trans _ _ _ _ h2 (R.invalidateLayout _)
          · exact h2
        · rw [Completion.erase_unit, Completion.erase_unit] at hc
          rw [hg, hc]
          apply R.unwind s _ _ (fun h => hn () h)
          exact ihEdges _ cb _
      · exact R.info s _ _
    · intro s cb e
      cases e with
      | none => simp only [Graph.forall_edges]; exact R.refl s
      | some e =>
        simp only [Graph.forall_edges]
        apply unit
        apply R.andThen s _ _ (ihJs s cb _)
        intro _ _
        apply unit2
        split
        · exact ihEdges _ cb _
        · exact R.stopUndefined _

theorem Rules.callAll {L : GraphLayout} {P : Graph → Graph → Completion Unit → Prop}
    (R : Rules L P) (fuel : Nat) (s : Graph) (cs : List Call) :
    P s (Graph.callAll fuel L s cs).graph (Graph.callAll fuel L s cs).completion :=
  R.foldl (Graph.call fuel L) (R.sound fuel).1 cs s ⟨s, .normal ()⟩ (R.refl s)

theorem Graph.setAutoLayout_eq (L : GraphLayout) (s : Graph) (b : Bool) :
    Graph.setAutoLayout L s b =
      if b ≠ s.m_autoLayout then Graph.invalidateLayout L (s.toggled b) else ⟨s, .normal ()⟩ := rfl

/-- The three ways `invalidateLayout` can go. -/
theorem Graph.invalidateLayout_cases (L : GraphLayout) (s : Graph) :
    (s.m_layoutLock ≠ 0 ∧
      Graph.invalidateLayout L s = ⟨{ s with m_layoutValid := false }, .normal ()⟩) ∨
    (s.m_layoutLock = 0 ∧ ∃ a, L s.m_graph s.m_attributes = .done a ∧
      Graph.invalidateLayout L s =
        ⟨{ s with m_attributes := a, m_layoutValid := true,
                  trace := s.trace ++ [.layoutRun, .nodesChanged, .edgesChanged] }, .normal ()⟩) ∨
    (s.m_layoutLock = 0 ∧ ∃ a, L s.m_graph s.m_attributes = .failed a ∧
      Graph.invalidateLayout L s =
        ⟨{ s with m_attributes := a, m_layoutValid := false,
                  trace := s.trace ++ [.layoutRun] }, .thrown⟩) := by
  by_cases h : s.m_layoutLock = 0
  · right
    cases hL : L s.m_graph s.m_attributes with
    | done a =>
      left
      exact ⟨h, a, rfl, by simp [Graph.invalidateLayout, h, hL, Graph.emit]⟩
    | failed a =>
      right
      exact ⟨h, a, rfl, by simp [Graph.invalidateLayout, h, hL, Graph.emit]⟩
  · left
    exact ⟨h, by simp [Graph.invalidateLayout, h]⟩

theorem Outcome.andThen_pure {α β : Type} (r : Outcome α) (b : α → β) :
    (r.andThen fun g a => ⟨g, .normal (b a)⟩).graph = r.graph ∧
    (r.andThen fun g a => ⟨g, .normal (b a)⟩).completion.erase = r.completion.erase := by
  obtain ⟨g, c⟩ := r
  cases c <;> exact ⟨rfl, rfl⟩

theorem MicroRules.toRules {L : GraphLayout} {P : Graph → Graph → Completion Unit → Prop}
    (M : MicroRules L P) : Rules L P where
  refl := M.refl
  stopFuel := M.stopFuel
  stopUndefined := M.stopUndefined
  trans := M.trans
  info := M.info
  called := M.called
  invalidateLayout := M.invalidateLayout
  setAutoLayout := by
    intro s b
    rw [Graph.setAutoLayout_eq]
    split
    · rename_i h
      exact M.trans _ _ _ _ (M.toggle s b h) (M.invalidateLayout _)
    · exact M.refl s
  addNode := by
    intro s a
    simp only [Graph.addNode]
    rw [(Outcome.andThen_pure _ _).1, (Outcome.andThen_pure _ _).2, Completion.erase_unit]
    exact M.trans _ _ _ _ (M.trans _ _ _ _ (M.newNode s) (M.setNodeAttributes _ _ _))
      (M.invalidateLayout _)
  removeNode := by
    intro s i
    simp only [Graph.removeNode]
    cases h : NodeModel.node s.m_graph i with
    | none => exact M.info s _ _
    | some v => exact M.trans _ _ _ _ (M.delNode s i v h) (M.invalidateLayout _)
  addEdge := by
    intro s a b
    simp only [Graph.addEdge]
    cases h1 : NodeModel.node s.m_graph a with
    | none => exact M.info s _ _
    | some v1 =>
      cases h2 : NodeModel.node s.m_graph b with
      | none => exact M.info s _ _
      | some v2 =>
        simp only []
        rw [(Outcome.andThen_pure _ _).1, (Outcome.andThen_pure _ _).2, Completion.erase_unit]
        exact M.trans _ _ _ _ (M.newEdge s a b v1 v2 h1 h2) (M.invalidateLayout _)
  removeEdge := by
    intro s i
    simp only [Graph.removeEdge]
    cases h : EdgeModel.edge s.m_graph i with
    | none => exact M.info s _ _
    | some e => exact M.trans _ _ _ _ (M.delEdge s i e h) (M.invalidateLayout _)
  clear := M.clear
  setNodeAttributes := M.setNodeAttributes
  leave := M.leave
  unwind := M.unwind

theorem Graph.invalidateLayout_locked (L : GraphLayout) (s : Graph) (h : s.m_layoutLock ≠ 0) :
    Graph.invalidateLayout L s = ⟨{ s with m_layoutValid := false }, .normal ()⟩ := by
  simp [Graph.invalidateLayout, h]

/-! ## Layout runs and the counter -/

theorem lastWritten_append (start : Int) (a b : List Int) :
    lastWritten start (a ++ b) = lastWritten (lastWritten start a) b := by
  simp [lastWritten, List.foldl_append]

theorem lastWritten_ne_zero (start : Int) (written : List Int) (h0 : start ≠ 0)
    (h : ∀ v ∈ written, v ≠ 0) : lastWritten start written ≠ 0 := by
  induction written generalizing start with
  | nil => exact h0
  | cons a l ih =>
    exact ih a (h a (List.mem_cons_self _ _)) (fun v hv => h v (List.mem_cons_of_mem _ hv))

theorem lockedRules (L : GraphLayout) :
    MicroRules L fun s s2 _ => ∃ written : List Int,
      s2.lockHistory = s.lockHistory ++ written ∧
      s2.m_layoutLock = lastWritten s.m_layoutLock written ∧
      (s.m_layoutLock ≠ 0 → (∀ v ∈ written, v ≠ 0) →
        layoutRuns s2.trace = layoutRuns s.trace) where
  refl := fun s => ⟨[], by simp, rfl, fun _ _ => rfl⟩
  stopFuel := fun s => ⟨[], by simp, rfl, fun _ _ => rfl⟩
  stopUndefined := fun s => ⟨[], by simp, rfl, fun _ _ => rfl⟩
  trans := by
    intro s s1 s2 k h1 h2
    obtain ⟨w1, a1, b1, c1⟩ := h1
    obtain ⟨w2, a2, b2, c2⟩ := h2
    refine ⟨w1 ++ w2, by rw [a2, a1, List.append_assoc], ?_, ?_⟩
    · rw [lastWritten_append, ← b1, b2]
    · intro h0 hw
      have hw1 : ∀ v ∈ w1, v ≠ 0 := fun v hv => hw v (List.mem_append_left _ hv)
      have hw2 : ∀ v ∈ w2, v ≠ 0 := fun v hv => hw v (List.mem_append_right _ hv)
      have h1 : s1.m_layoutLock ≠ 0 := by rw [b1]; exact lastWritten_ne_zero _ _ h0 hw1
      rw [c2 h1 hw2, c1 h0 hw1]
  info := by
    intro s m a
    exact ⟨[], by simp [Graph.emit], rfl, fun _ _ => by
      simp [Graph.emit, layoutRuns, List.count_append]⟩
  called := by
    intro s d
    exact ⟨[], by simp [Graph.emit], rfl, fun _ _ => by
      simp [Graph.emit, layoutRuns, List.count_append]⟩
  invalidateLayout := by
    intro s
    refine ⟨[], ?_, ?_, ?_⟩
    · rcases Graph.invalidateLayout_cases L s with ⟨_, e⟩ | ⟨_, a, _, e⟩ | ⟨_, a, _, e⟩ <;>
        rw [e] <;> simp
    · rcases Graph.invalidateLayout_cases L s with ⟨_, e⟩ | ⟨_, a, _, e⟩ | ⟨_, a, _, e⟩ <;>
        rw [e] <;> rfl
    · intro h0 _
      rw [Graph.invalidateLayout_locked L s h0]
  toggle := by
    intro s b _
    cases b
    · exact ⟨[s.m_layoutLock + 1], rfl, rfl, fun _ _ => by
        simp [Graph.toggled, Graph.setLock, Graph.emit, layoutRuns, List.count_append]⟩
    · exact ⟨[s.m_layoutLock - 1], rfl, rfl, fun _ _ => by
        simp [Graph.toggled, Graph.setLock, Graph.emit, layoutRuns, List.count_append]⟩
  newNode := fun s => ⟨[], by simp, rfl, fun _ _ => rfl⟩
  delNode := fun s _ _ _ => ⟨[], by simp, rfl, fun _ _ => rfl⟩
  newEdge := fun s _ _ _ _ _ _ => ⟨[], by simp, rfl, fun _ _ => rfl⟩
  delEdge := fun s _ _ _ => ⟨[], by simp, rfl, fun _ _ => rfl⟩
  clear := fun s => ⟨[], by simp, rfl, fun _ _ => rfl⟩
  setNodeAttributes := fun s _ _ => ⟨[], by simp [Graph.setNodeAttributes], rfl, fun _ _ => rfl⟩
  leave := by
    intro s s2 h
    obtain ⟨w, a, b, c⟩ := h
    refine ⟨[s.m_layoutLock + 1] ++ w ++ [s2.m_layoutLock - 1], ?_, ?_, ?_⟩
    · simp only [Graph.setLock] at a ⊢
      rw [a]; simp
    · simp [Graph.setLock, lastWritten]
    · intro _ hw
      have h1 : s.m_layoutLock + 1 ≠ 0 := hw _ (by simp)
      have hw2 : ∀ v ∈ w, v ≠ 0 := fun v hv => hw v (by simp [hv])
      exact c h1 hw2
  unwind := by
    intro s s2 k _ h
    obtain ⟨w, a, b, c⟩ := h
    refine ⟨[s.m_layoutLock + 1] ++ w, ?_, ?_, ?_⟩
    · simp only [Graph.setLock] at a
      rw [a]; simp
    · rw [b]; simp [Graph.setLock, lastWritten]
    · intro _ hw
      have h1 : s.m_layoutLock + 1 ≠ 0 := hw _ (by simp)
      have hw2 : ∀ v ∈ w, v ≠ 0 := fun v hv => hw v (by simp [hv])
      exact c h1 hw2

/-! ## C6: `invalidateLayout` -/

/-- C6: `invalidateLayout` is decided by the counter alone.  With a layout function that
does not fail, at counter 0 it runs the layout once on the attribute store, then
notifies the node view and then the edge view, and ends with the validity flag true;
at a nonzero counter it only clears the flag.  The flag before the call does not
matter, and at a nonzero counter no layout function, failing or not, is run.
Consequently, in every facade call (scripts included) that starts at a nonzero counter
and never writes 0 to the counter, no layout run occurs. -/
theorem invalidateLayout_decided_by_counter
    (f : OgdfGraph → GraphAttributes → GraphAttributes) (s : Graph) (fuel : Nat) (c : Call) :
    Graph.invalidateLayout (GraphLayout.total f) s =
      (if s.m_layoutLock = 0 then
        ⟨{ s with m_attributes := f s.m_graph s.m_attributes, m_layoutValid := true,
                  trace := s.trace ++ [.layoutRun, .nodesChanged, .edgesChanged] }, .normal ()⟩
       else ⟨{ s with m_layoutValid := false }, .normal ()⟩) ∧
    (∀ b : Bool, Graph.invalidateLayout (GraphLayout.total f) { s with m_layoutValid := b } =
      Graph.invalidateLayout (GraphLayout.total f) s) ∧
    (∀ L : GraphLayout, s.m_layoutLock ≠ 0 →
      Graph.invalidateLayout L s = ⟨{ s with m_layoutValid := false }, .normal ()⟩) ∧
    (∀ L : GraphLayout, ∃ written : List Int,
      (Graph.call fuel L s c).graph.lockHistory = s.lockHistory ++ written ∧
      (s.m_layoutLock ≠ 0 → (∀ v ∈ written, v ≠ 0) →
        layoutRuns (Graph.call fuel L s c).graph.trace = layoutRuns s.trace)) := by
  refine ⟨?_, ?_, ?_, ?_⟩
  · by_cases h : s.m_layoutLock = 0
    · simp [Graph.invalidateLayout, GraphLayout.total, Graph.emit, h]
    · simp [Graph.invalidateLayout, h]
  · intro b
    simp [Graph.invalidateLayout]
  · intro L h
    simp [Graph.invalidateLayout, h]
  · intro L
    obtain ⟨w, a, _, h⟩ := ((lockedRules L).toRules.sound fuel).1 s c
    exact ⟨w, a, h⟩

/-- C6, witness: on `twoNodes` with the counter raised to 1 `invalidateLayout` runs no
layout, not even a failing one. -/
theorem invalidateLayout_decided_by_counter_witness :
    (twoNodes.setLock 1).m_layoutLock ≠ 0 ∧
    Graph.invalidateLayout failingLayout (twoNodes.setLock 1) =
      ⟨{ twoNodes.setLock 1 with m_layoutValid := false }, .normal ()⟩ :=
  ⟨by decide,
   (invalidateLayout_decided_by_counter (fun _ a => a) (twoNodes.setLock 1) 0 .clear).2.2.1
     failingLayout (by decide)⟩

/-! ## C4: `addEdge` -/

/-- C4: when one of the two indices does not resolve, `addEdge` returns `-1`, reports an
error and changes nothing else (no layout run, no notification).  When both resolve it
appends exactly one edge from the source node to the target node and, the layout not
failing, returns the index of that edge, which is not `-1`. -/
theorem addEdge_rejects_or_creates
    (f : OgdfGraph → GraphAttributes → GraphAttributes) (s : Graph)
    (sourceNode targetNode : Int) :
    ((NodeModel.node s.m_graph sourceNode = none ∨ NodeModel.node s.m_graph targetNode = none) →
      ∀ L : GraphLayout, Graph.addEdge L s sourceNode targetNode =
        ⟨s.emit (.info "One node index does not exist" []), .normal (-1)⟩) ∧
    (∀ v1 v2, NodeModel.node s.m_graph sourceNode = some v1 →
      NodeModel.node s.m_graph targetNode = some v2 →
      (Graph.addEdge (GraphLayout.total f) s sourceNode targetNode).completion =
        .normal (s.m_graph.edgeIdCount : Int) ∧
      (s.m_graph.edgeIdCount : Int) ≠ -1 ∧
      (Graph.addEdge (GraphLayout.total f) s sourceNode targetNode).graph.m_graph.edges =
        s.m_graph.edges ++ [⟨s.m_graph.edgeIdCount, v1.index, v2.index⟩] ∧
      (Graph.addEdge (GraphLayout.total f) s sourceNode targetNode).graph.m_graph.nodes =
        s.m_graph.nodes ∧
      (v1.index : Int) = sourceNode ∧ (v2.index : Int) = targetNode ∧
      v1.index ∈ s.m_graph.nodes ∧ v2.index ∈ s.m_graph.nodes) := by
  constructor
  · intro h L
    rcases h with h | h
    · simp [Graph.addEdge, h]
    · cases h1 : NodeModel.node s.m_graph sourceNode <;> simp [Graph.addEdge, h, h1]
  · intro v1 v2 h1 h2
    have e1 : (v1.index : Int) = sourceNode ∧ v1.index ∈ s.m_graph.nodes := by
      unfold NodeModel.node at h1
      split at h1
      · rename_i h; cases h1; exact ⟨Int.toNat_of_nonneg h.1, h.2⟩
      · cases h1
    have e2 : (v2.index : Int) = targetNode ∧ v2.index ∈ s.m_graph.nodes := by
      unfold NodeModel.node at h2
      split at h2
      · rename_i h; cases h2; exact ⟨Int.toNat_of_nonneg h.1, h.2⟩
      · cases h2
    refine ⟨?_, by omega, ?_, ?_, e1.1, e2.1, e1.2, e2.2⟩
    · by_cases h : s.m_layoutLock = 0 <;>
        simp [Graph.addEdge, h1, h2, OgdfGraph.newEdge, Graph.invalidateLayout,
          GraphLayout.total, Graph.emit, h, Outcome.andThen]
    · by_cases h : s.m_layoutLock = 0 <;>
        simp [Graph.addEdge, h1, h2, OgdfGraph.newEdge, Graph.invalidateLayout,
          GraphLayout.total, Graph.emit, h, Outcome.andThen]
    · by_cases h : s.m_layoutLock = 0 <;>
        simp [Graph.addEdge, h1, h2, OgdfGraph.newEdge, Graph.invalidateLayout,
          GraphLayout.total, Graph.emit, h, Outcome.andThen]

/-- C4, witness: on the fresh graph `addEdge(0, 1)` is rejected; on `twoNodes` it
creates the edge `0 → 1` and returns its index `0`. -/
theorem addEdge_rejects_or_creates_witness :
    ((NodeModel.node Graph.new.m_graph 0 = none ∨ NodeModel.node Graph.new.m_graph 1 = none) ∧
      Graph.addEdge identityLayout Graph.new 0 1 =
        ⟨Graph.new.emit (.info "One node index does not exist" []), .normal (-1)⟩) ∧
    (NodeModel.node twoNodes.m_graph 0 = some ⟨0, 0⟩ ∧
      NodeModel.node twoNodes.m_graph 1 = some ⟨0, 1⟩ ∧
      (Graph.addEdge (GraphLayout.total fun _ a => a) twoNodes 0 1).completion = .normal 0 ∧
      (Graph.addEdge (GraphLayout.total fun _ a => a) twoNodes 0 1).graph.m_graph.edges =
        [⟨0, 0, 1⟩]) :=
  ⟨⟨Or.inl (by decide),
    (addEdge_rejects_or_creates (fun _ a => a) Graph.new 0 1).1 (Or.inl (by decide))
      identityLayout⟩,
   by decide, by decide,
   ((addEdge_rejects_or_creates (fun _ a => a) twoNodes 0 1).2 ⟨0, 0⟩ ⟨0, 1⟩
      (by decide) (by decide)).1,
   ((addEdge_rejects_or_creates (fun _ a => a) twoNodes 0 1).2 ⟨0, 0⟩ ⟨0, 1⟩
      (by decide) (by decide)).2.2.1⟩

/-! ## C5: unknown indices -/

/-- C5: on an index that does not resolve, `removeNode`, `modifyNode` (whatever the
setter) and `removeEdge` report an error and change nothing else: graph, attribute
store, counter and validity flag stay, the trace gains the report only (no layout run,
no notification, no invocation of the setter). -/
theorem unknown_index_is_noop (L : GraphLayout) (s : Graph) (index : Int) :
    (NodeModel.node s.m_graph index = none →
      Graph.removeNode L s index =
        ⟨s.emit (.info "Can not remove node with index" [index]), .normal ()⟩ ∧
      ∀ (fuel : Nat) (setter : QJSValue), Graph.modifyNode (fuel + 1) L s index setter =
        ⟨s.emit (.info "Can not modify node with index" [index]), .normal ()⟩) ∧
    (EdgeModel.edge s.m_graph index = none →
      Graph.removeEdge L s index =
        ⟨s.emit (.info "Can not remove egde with index" [index]), .normal ()⟩) := by
  refine ⟨fun h => ⟨?_, ?_⟩, fun h => ?_⟩
  · simp [Graph.removeNode, h]
  · intro fuel setter
    simp [Graph.modifyNode, h]
  · simp [Graph.removeEdge, h]

/-- C5, witness: index `7` names neither a node nor an edge of `twoNodesOneEdge`. -/
theorem unknown_index_is_noop_witness :
    (NodeModel.node twoNodesOneEdge.m_graph 7 = none ∧
      Graph.removeNode failingLayout twoNodesOneEdge 7 =
        ⟨twoNodesOneEdge.emit (.info "Can not remove node with index" [7]), .normal ()⟩) ∧
    (EdgeModel.edge twoNodesOneEdge.m_graph 7 = none ∧
      Graph.removeEdge failingLayout twoNodesOneEdge 7 =
        ⟨twoNodesOneEdge.emit (.info "Can not remove egde with index" [7]), .normal ()⟩) :=
  ⟨⟨by decide, ((unknown_index_is_noop failingLayout twoNodesOneEdge 7).1 (by decide)).1⟩,
   ⟨by decide, (unknown_index_is_noop failingLayout twoNodesOneEdge 7).2 (by decide)⟩⟩

/-! ## C7: a failing layout function -/

theorem thrownRules (L : GraphLayout) :
    MicroRules L fun _ s2 k => k = .thrown →
      s2.m_layoutValid = false ∧ s2.m_layoutLock = 0 ∧ ∃ pre, s2.trace = pre ++ [.layoutRun] where
  refl := fun _ h => nomatch h
  stopFuel := fun _ h => nomatch h
  stopUndefined := fun _ h => nomatch h
  trans := fun _ _ _ _ _ h => h
  info := fun _ _ _ h => nomatch h
  called := fun _ _ h => nomatch h
  invalidateLayout := by
    intro s h
    rcases Graph.invalidateLayout_cases L s with ⟨_, e⟩ | ⟨_, a, _, e⟩ | ⟨h0, a, _, e⟩
    · rw [e] at h; cases h
    · rw [e] at h; cases h
    · rw [e]; exact ⟨rfl, h0, s.trace, rfl⟩
  toggle := fun _ _ _ h => nomatch h
  newNode := fun _ h => nomatch h
  delNode := fun _ _ _ _ h => nomatch h
  newEdge := fun _ _ _ _ _ _ _ h => nomatch h
  delEdge := fun _ _ _ _ h => nomatch h
  clear := fun _ h => nomatch h
  setNodeAttributes := fun _ _ _ h => nomatch h
  leave := fun _ _ _ h => nomatch h
  unwind := fun _ _ _ _ h => h

theorem failingRules (L : GraphLayout) (hL : ∀ g a, ∃ b, L g a = .failed b) :
    MicroRules L fun s s2 k =>
      nodeNotifications s2.trace = nodeNotifications s.trace ∧
      edgeNotifications s2.trace = edgeNotifications s.trace ∧
      (k ≠ .thrown → layoutRuns s2.trace = layoutRuns s.trace) ∧
      (k = .thrown → layoutRuns s2.trace = layoutRuns s.trace + 1) where
  refl := fun _ => ⟨rfl, rfl, fun _ => rfl, fun h => nomatch h⟩
  stopFuel := fun _ => ⟨rfl, rfl, fun _ => rfl, fun h => nomatch h⟩
  stopUndefined := fun _ => ⟨rfl, rfl, fun _ => rfl, fun h => nomatch h⟩
  trans := by
    intro s s1 s2 k h1 h2
    have e := h1.2.2.1 (fun h => nomatch h)
    refine ⟨h2.1.trans h1.1, h2.2.1.trans h1.2.1, fun h => (h2.2.2.1 h).trans e, fun h => ?_⟩
    rw [h2.2.2.2 h, e]
  info := by
    intro s m a
    simp [Graph.emit, nodeNotifications, edgeNotifications, layoutRuns, List.count_append]
  called := by
    intro s d
    simp [Graph.emit, nodeNotifications, edgeNotifications, layoutRuns, List.count_append]
  invalidateLayout := by
    intro s
    rcases Graph.invalidateLayout_cases L s with ⟨_, e⟩ | ⟨_, a, ha, _⟩ | ⟨_, a, _, e⟩
    · rw [e]; exact ⟨rfl, rfl, fun _ => rfl, fun h => nomatch h⟩
    · obtain ⟨b, hb⟩ := hL s.m_graph s.m_attributes
      rw [hb] at ha; cases ha
    · rw [e]
      simp [nodeNotifications, edgeNotifications, layoutRuns, List.count_append]
  toggle := by
    intro s b _
    cases b <;>
      simp [Graph.toggled, Graph.setLock, Graph.emit, nodeNotifications, edgeNotifications,
        layoutRuns, List.count_append]
  newNode := fun _ => ⟨rfl, rfl, fun _ => rfl, fun h => nomatch h⟩
  delNode := fun _ _ _ _ => ⟨rfl, rfl, fun _ => rfl, fun h => nomatch h⟩
  newEdge := fun _ _ _ _ _ _ _ => ⟨rfl, rfl, fun _ => rfl, fun h => nomatch h⟩
  delEdge := fun _ _ _ _ => ⟨rfl, rfl, fun _ => rfl, fun h => nomatch h⟩
  clear := fun _ => ⟨rfl, rfl, fun _ => rfl, fun h => nomatch h⟩
  setNodeAttributes := fun _ _ _ => ⟨rfl, rfl, fun _ => rfl, fun h => nomatch h⟩
  leave := fun _ _ h => ⟨h.1, h.2.1, fun _ => h.2.2.1 (fun h => nomatch h), fun h => nomatch h⟩
  unwind := fun _ _ _ _ h => h

/-- C7: a failed layout never leaves the state Valid.  (1) At counter 0, when the
layout function fails, `invalidateLayout` ends by the exception with the validity flag
false and the trace extended by the layout run only.  (2) Whenever a facade call (a
mutation, `setAutoLayout`, `eachNode`, `eachEdge`, scripts included) ends by the
exception, the flag is false, the counter is 0 and the last effect is the failed layout
run: no view was notified after it.  (3) With a layout function that fails whenever it is
called no call ever notifies a view, and a call in which the layout is run ends by the
exception: the failure is not swallowed. -/
theorem layout_failure_keeps_invalid (fuel : Nat) (L : GraphLayout) (s : Graph) (c : Call) :
    (∀ a, s.m_layoutLock = 0 → L s.m_graph s.m_attributes = .failed a →
      Graph.invalidateLayout L s =
        ⟨{ s with m_attributes := a, m_layoutValid := false,
                  trace := s.trace ++ [.layoutRun] }, .thrown⟩) ∧
    ((Graph.call fuel L s c).completion = .thrown →
      (Graph.call fuel L s c).graph.m_layoutValid = false ∧
      (Graph.call fuel L s c).graph.m_layoutLock = 0 ∧
      ∃ pre, (Graph.call fuel L s c).graph.trace = pre ++ [.layoutRun]) ∧
    ((∀ g a, ∃ b, L g a = .failed b) →
      nodeNotifications (Graph.call fuel L s c).graph.trace = nodeNotifications s.trace ∧
      edgeNotifications (Graph.call fuel L s c).graph.trace = edgeNotifications s.trace ∧
      ((Graph.call fuel L s c).completion ≠ .thrown →
        layoutRuns (Graph.call fuel L s c).graph.trace = layoutRuns s.trace) ∧
      ((Graph.call fuel L s c).completion = .thrown →
        layoutRuns (Graph.call fuel L s c).graph.trace = layoutRuns s.trace + 1)) := by
  refine ⟨?_, ?_, ?_⟩
  · intro a h0 ha
    rcases Graph.invalidateLayout_cases L s with ⟨h, _⟩ | ⟨_, b, hb, _⟩ | ⟨_, b, hb, e⟩
    · exact absurd h0 h
    · rw [hb] at ha; cases ha
    · rw [hb] at ha; cases ha; exact e
  · exact ((thrownRules L).toRules.sound fuel).1 s c
  · intro hL
    exact ((failingRules L hL).toRules.sound fuel).1 s c

/-- C7, witness: with a failing layout function `eachNode` over `twoNodes`, whose
visitor modifies the node it is given, ends by the exception, the flag false. -/
theorem layout_failure_keeps_invalid_witness :
    (Graph.call 8 failingLayout twoNodes (.eachNode (.function
        (fun _ => [.modifyNode 0 (.data (.object []))]) id))).completion = .thrown ∧
    (Graph.call 8 failingLayout twoNodes (.eachNode (.function
        (fun _ => [.modifyNode 0 (.data (.object []))]) id))).graph.m_layoutValid = false ∧
    (∀ g a, ∃ b, failingLayout g a = .failed b) ∧
    nodeNotifications (Graph.call 8 failingLayout twoNodes (.eachNode (.function
        (fun _ => [.modifyNode 0 (.data (.object []))]) id))).graph.trace =
      nodeNotifications twoNodes.trace :=
  ⟨by decide,
   ((layout_failure_keeps_invalid 8 failingLayout twoNodes (.eachNode (.function
        (fun _ => [.modifyNode 0 (.data (.object []))]) id))).2.1 (by decide)).1,
   fun _ a => ⟨a, rfl⟩,
   ((layout_failure_keeps_invalid 8 failingLayout twoNodes (.eachNode (.function
        (fun _ => [.modifyNode 0 (.data (.object []))]) id))).2.2 (fun _ a => ⟨a, rfl⟩)).1⟩

/-! ## C8: the toggle against `suspend()` / `resume()` -/

/-- C8, counterexample: `twoNodes` is Valid with automatic layout on and counter 0.
`setAutoLayout(false)` leaves the flag false where `suspend()` leaves it true, and
`setAutoLayout(false)` followed by `setAutoLayout(true)` runs the layout once where
`suspend()` followed by `resume()` runs none. -/
theorem toggle_differs_from_suspend_resume :
    twoNodes.m_autoLayout = true ∧ twoNodes.m_layoutValid = true ∧ twoNodes.m_layoutLock = 0 ∧
    (Graph.setAutoLayout identityLayout twoNodes false).graph.m_layoutValid ≠
      (Spec.suspend twoNodes).m_layoutValid ∧
    layoutRuns (Graph.setAutoLayout identityLayout
        (Graph.setAutoLayout identityLayout twoNodes false).graph true).graph.trace =
      layoutRuns twoNodes.trace + 1 ∧
    layoutRuns (Spec.resume identityLayout (Spec.suspend twoNodes)).graph.trace =
      layoutRuns twoNodes.trace := by
  decide

/-- C8, amended: `setAutoLayout` moves the counter like `suspend()` / `resume()` and then
always calls `invalidateLayout`.  (1) With automatic layout on, `setAutoLayout(false)`
gives counter + 1 and the flag false, with no layout run when the new counter is
nonzero.  (2) With automatic layout off, `setAutoLayout(true)` gives counter - 1 and then
invalidates whatever the flag; when the flag is false this is the counter, flag, layout
runs and completion of `resume()`.  (3) From a state with automatic layout on and
counter 0, Valid or not, `setAutoLayout(false)` followed by `setAutoLayout(true)` runs
the layout exactly once. -/
theorem toggle_invalidates_always (L : GraphLayout)
    (f : OgdfGraph → GraphAttributes → GraphAttributes) (s : Graph) :
    (s.m_autoLayout = true →
      Graph.setAutoLayout L s false = Graph.invalidateLayout L
        (({ Spec.suspend s with m_autoLayout := false } : Graph).emit .autoLayoutChanged) ∧
      (Graph.setAutoLayout L s false).graph.m_layoutLock = s.m_layoutLock + 1 ∧
      (s.m_layoutLock + 1 ≠ 0 →
        (Graph.setAutoLayout L s false).graph.m_layoutValid = false ∧
        layoutRuns (Graph.setAutoLayout L s false).graph.trace = layoutRuns s.trace)) ∧
    (s.m_autoLayout = false →
      Graph.setAutoLayout L s true = Graph.invalidateLayout L
        (({ s.setLock (s.m_layoutLock - 1) with m_autoLayout := true } : Graph).emit
          .autoLayoutChanged) ∧
      (Graph.setAutoLayout L s true).graph.m_layoutLock = s.m_layoutLock - 1 ∧
      (s.m_layoutValid = false →
        (Graph.setAutoLayout L s true).graph.m_layoutLock =
          (Spec.resume L s).graph.m_layoutLock ∧
        (Graph.setAutoLayout L s true).graph.m_layoutValid =
          (Spec.resume L s).graph.m_layoutValid ∧
        layoutRuns (Graph.setAutoLayout L s true).graph.trace =
          layoutRuns (Spec.resume L s).graph.trace ∧
        (Graph.setAutoLayout L s true).completion = (Spec.resume L s).completion)) ∧
    (s.m_autoLayout = true → s.m_layoutLock = 0 →
      layoutRuns (Graph.setAutoLayout (GraphLayout.total f)
          (Graph.setAutoLayout (GraphLayout.total f) s false).graph true).graph.trace =
        layoutRuns s.trace + 1) := by
  refine ⟨fun h => ⟨?_, ?_, fun h1 => ?_⟩, fun h => ⟨?_, ?_, fun hv => ?_⟩, fun h h0 => ?_⟩
  · simp [Graph.setAutoLayout, h, Spec.suspend, Graph.setLock, Graph.emit]
  · rcases Graph.invalidateLayout_cases L (s.toggled false) with ⟨_, e⟩ | ⟨_, a, _, e⟩ | ⟨_, a, _, e⟩ <;>
      simp [Graph.setAutoLayout_eq, h, e] <;>
      simp [Graph.toggled, Graph.setLock, Graph.emit]
  · have hl : (s.toggled false).m_layoutLock ≠ 0 := by
      simpa [Graph.toggled, Graph.setLock, Graph.emit] using h1
    rcases Graph.invalidateLayout_cases L (s.toggled false) with ⟨_, e⟩ | ⟨h2, _⟩ | ⟨h2, _⟩
    · simp [Graph.setAutoLayout_eq, h, e]
      simp [Graph.toggled, Graph.setLock, Graph.emit, layoutRuns, List.count_append]
    · exact absurd h2 hl
    · exact absurd h2 hl
  · simp [Graph.setAutoLayout, h, Graph.setLock, Graph.emit]
  · rcases Graph.invalidateLayout_cases L (s.toggled true) with ⟨_, e⟩ | ⟨_, a, _, e⟩ | ⟨_, a, _, e⟩ <;>
      simp [Graph.setAutoLayout_eq, h, e] <;>
      simp [Graph.toggled, Graph.setLock, Graph.emit]
  · by_cases h0 : s.m_layoutLock - 1 = 0
    · cases hL : L s.m_graph s.m_attributes <;>
        simp [Graph.setAutoLayout, Spec.resume, h, hv, h0, hL, Graph.invalidateLayout,
          Graph.setLock, Graph.emit, layoutRuns, List.count_append]
    · simp [Graph.setAutoLayout, Spec.resume, h, hv, h0, Graph.invalidateLayout,
        Graph.setLock, Graph.emit, layoutRuns, List.count_append]
  · simp [Graph.setAutoLayout, h, h0, Graph.invalidateLayout, GraphLayout.total,
      Graph.setLock, Graph.emit, layoutRuns, List.count_append]

/-- C8, amended, witness: on `twoNodes` (automatic layout on, counter 0) switching off
and on again runs the layout once more; on the state after switching off, switching on
agrees with `resume()`. -/
theorem toggle_invalidates_always_witness :
    (twoNodes.m_autoLayout = true ∧ twoNodes.m_layoutLock = 0 ∧
      layoutRuns (Graph.setAutoLayout (GraphLayout.total fun _ a => a)
          (Graph.setAutoLayout (GraphLayout.total fun _ a => a) twoNodes false).graph
          true).graph.trace = layoutRuns twoNodes.trace + 1) ∧
    ((Graph.setAutoLayout identityLayout twoNodes false).graph.m_autoLayout = false ∧
      (Graph.setAutoLayout identityLayout twoNodes false).graph.m_layoutValid = false ∧
      (Graph.setAutoLayout identityLayout
          (Graph.setAutoLayout identityLayout twoNodes false).graph true).completion =
        (Spec.resume identityLayout
          (Graph.setAutoLayout identityLayout twoNodes false).graph).completion) :=
  ⟨⟨by decide, by decide,
    (toggle_invalidates_always identityLayout (fun _ a => a) twoNodes).2.2
      (by decide) (by decide)⟩,
   by decide, by decide,
   (((toggle_invalidates_always identityLayout (fun _ a => a)
      (Graph.setAutoLayout identityLayout twoNodes false).graph).2.1 (by decide)).2.2
      (by decide)).2.2.2⟩

/-! ## C9: the validity flag and `clear()` -/

/-- C9, the code at the failing input: in the state in which a visitor of `eachNode`
runs (counter 1, flag true), `clear()` empties the graph and leaves the validity flag
true; the script `clearInVisitor` reaches that point from a fresh graph. -/
theorem clear_keeps_flag :
    insideVisitor.m_layoutLock = 1 ∧ insideVisitor.m_layoutValid = true ∧
    (Graph.clear insideVisitor).graph.m_graph.nodes = [] ∧
    (Graph.clear insideVisitor).graph.m_layoutValid = true ∧
    (Graph.callAll 6 identityLayout Graph.new clearInVisitor).graph.m_graph.nodes = [] ∧
    (Graph.callAll 6 identityLayout Graph.new clearInVisitor).graph.m_layoutLock = 1 ∧
    (Graph.callAll 6 identityLayout Graph.new clearInVisitor).graph.m_layoutValid = true := by
  decide

/-! ## Scripts of calls -/

theorem Graph.foldl_stopped (step : Graph → Call → Outcome Unit) (cs : List Call)
    (r : Outcome Unit) (h : r.completion ≠ .normal ()) :
    cs.foldl (fun (r : Outcome Unit) c => r.andThen fun g _ => step g c) r = r := by
  induction cs with
  | nil => rfl
  | cons c cs ih =>
    rw [List.foldl_cons]
    have e : (r.andThen fun g _ => step g c) = r := by
      obtain ⟨g, k⟩ := r
      cases k with
      | normal u => exact absurd rfl h
      | thrown => rfl
      | undefinedBehaviour => rfl
      | outOfFuel => rfl
    rw [e]; exact ih

theorem Graph.callAll_nil (fuel : Nat) (L : GraphLayout) (s : Graph) :
    Graph.callAll fuel L s [] = ⟨s, .normal ()⟩ := rfl

theorem Graph.callAll_cons (fuel : Nat) (L : GraphLayout) (s : Graph) (c : Call)
    (cs : List Call) :
    Graph.callAll fuel L s (c :: cs) =
      (Graph.call fuel L s c).andThen fun g _ => Graph.callAll fuel L g cs := by
  unfold Graph.callAll
  rw [List.foldl_cons, Outcome.andThen_normal]
  generalize Graph.call fuel L s c = r
  obtain ⟨g, k⟩ := r
  cases k with
  | normal u => rfl
  | thrown => exact Graph.foldl_stopped _ cs _ (fun h => nomatch h)
  | undefinedBehaviour => exact Graph.foldl_stopped _ cs _ (fun h => nomatch h)
  | outOfFuel => exact Graph.foldl_stopped _ cs _ (fun h => nomatch h)

theorem Graph.callAll_cons_normal (fuel : Nat) (L : GraphLayout) (s : Graph) (c : Call)
    (cs : List Call) (h : (Graph.call fuel L s c).completion = .normal ()) :
    Graph.callAll fuel L s (c :: cs) = Graph.callAll fuel L (Graph.call fuel L s c).graph cs := by
  rw [Graph.callAll_cons]
  generalize Graph.call fuel L s c = r at h
  obtain ⟨g, k⟩ := r
  cases h
  rfl

theorem NodeModel.node_some {g : OgdfGraph} {i : Int} {v : NodeHandle}
    (h : NodeModel.node g i = some v) :
    v.index ∈ g.nodes ∧ (v.index : Int) = i ∧ v.epoch = g.clearCount := by
  unfold NodeModel.node at h
  split at h
  · rename_i h1; cases h; exact ⟨h1.2, Int.toNat_of_nonneg h1.1, rfl⟩
  · cases h

theorem QJSValue.isObject_of_isCallable {o : QJSValue} (h : o.isCallable = true) :
    o.isObject = true := by
  cases o with
  | data d => cases h
  | function body result => rfl

theorem Graph.invalidateLayout_total (f : OgdfGraph → GraphAttributes → GraphAttributes)
    (s : Graph) : (Graph.invalidateLayout (GraphLayout.total f) s).completion = .normal () := by
  rcases Graph.invalidateLayout_cases (GraphLayout.total f) s with ⟨_, e⟩ | ⟨_, a, _, e⟩ | ⟨_, a, h, _⟩
  · rw [e]
  · rw [e]
  · cases h

/-! ## C3: no dangling edges -/

theorem edgesLiveRules (L : GraphLayout) :
    MicroRules L fun s s2 _ => s.m_graph.EdgesLive → s2.m_graph.EdgesLive where
  refl := fun _ h => h
  stopFuel := fun _ h => h
  stopUndefined := fun _ h => h
  trans := fun _ _ _ _ h1 h2 h => h2 (h1 h)
  info := fun _ _ _ h => h
  called := fun _ _ h => h
  invalidateLayout := by
    intro s h
    rcases Graph.invalidateLayout_cases L s with ⟨_, e⟩ | ⟨_, a, _, e⟩ | ⟨_, a, _, e⟩ <;>
      rw [e] <;> exact h
  toggle := by
    intro s b _ h
    cases b <;> exact h
  newNode := by
    intro s h e he
    have := h e he
    simp only [OgdfGraph.newNode, List.mem_append]
    exact ⟨Or.inl this.1, Or.inl this.2⟩
  delNode := by
    intro s i v _ h e he
    simp only [OgdfGraph.delNode, List.mem_filter, decide_eq_true_eq] at he ⊢
    have := h e he.1
    simp only [ne_eq, decide_not, Bool.not_eq_true', decide_eq_false_iff_not]
    exact ⟨⟨this.1, he.2.1⟩, ⟨this.2, he.2.2⟩⟩
  newEdge := by
    intro s a b v1 v2 h1 h2 h e he
    simp only [OgdfGraph.newEdge, List.mem_append, List.mem_singleton] at he ⊢
    rcases he with he | he
    · exact h e he
    · subst he
      exact ⟨(NodeModel.node_some h1).1, (NodeModel.node_some h2).1⟩
  delEdge := by
    intro s i x _ h e he
    simp only [OgdfGraph.delEdge, List.mem_filter] at he ⊢
    exact h e he.1
  clear := by
    intro s _ e he
    simp [OgdfGraph.clear] at he
  setNodeAttributes := fun _ _ _ h => h
  leave := fun _ _ h1 h => h1 h
  unwind := fun _ _ _ _ h1 h => h1 h

theorem Graph.call_topology_normal (f : OgdfGraph → GraphAttributes → GraphAttributes)
    (fuel : Nat) (s : Graph) (c : Call) (h : c.isTopologyCall = true) :
    (Graph.call (fuel + 1) (GraphLayout.total f) s c).completion = .normal () := by
  cases c with
  | addNode a =>
    simp only [Graph.call, Graph.discard, Graph.addNode]
    have := (Outcome.andThen_pure (Graph.invalidateLayout (GraphLayout.total f)
      (({ s with m_graph := s.m_graph.newNode.1 } : Graph).setNodeAttributes
        s.m_graph.newNode.2 a)) (fun _ => ())).2
    have h1 := Graph.invalidateLayout_total f
      (({ s with m_graph := s.m_graph.newNode.1 } : Graph).setNodeAttributes
        s.m_graph.newNode.2 a)
    generalize Graph.invalidateLayout (GraphLayout.total f)
      (({ s with m_graph := s.m_graph.newNode.1 } : Graph).setNodeAttributes
        s.m_graph.newNode.2 a) = r at h1
    obtain ⟨g, k⟩ := r
    cases h1
    rfl
  | removeNode i =>
    simp only [Graph.call, Graph.removeNode]
    cases NodeModel.node s.m_graph i with
    | none => rfl
    | some v => exact Graph.invalidateLayout_total f _
  | addEdge a b =>
    simp only [Graph.call, Graph.discard, Graph.addEdge]
    cases NodeModel.node s.m_graph a with
    | none => rfl
    | some v1 =>
      cases NodeModel.node s.m_graph b with
      | none => rfl
      | some v2 =>
        simp only []
        have h1 := Graph.invalidateLayout_total f
          ({ s with m_graph := (s.m_graph.newEdge v1 v2).1 } : Graph)
        generalize Graph.invalidateLayout (GraphLayout.total f)
          ({ s with m_graph := (s.m_graph.newEdge v1 v2).1 } : Graph) = r at h1
        obtain ⟨g, k⟩ := r
        cases h1
        rfl
  | removeEdge i =>
    simp only [Graph.call, Graph.removeEdge]
    cases EdgeModel.edge s.m_graph i with
    | none => rfl
    | some e => exact Graph.invalidateLayout_total f _
  | modifyNode i o => cases h
  | eachNode cb => cases h
  | eachEdge cb => cases h
  | clear => cases h
  | setAutoLayout b => cases h

theorem Graph.callAll_topology_normal (f : OgdfGraph → GraphAttributes → GraphAttributes)
    (fuel : Nat) (cs : List Call) :
    ∀ s : Graph, (∀ c ∈ cs, c.isTopologyCall = true) →
      (Graph.callAll (fuel + 1) (GraphLayout.total f) s cs).completion = .normal () := by
  induction cs with
  | nil => intro s _; rfl
  | cons c cs ih =>
    intro s h
    rw [Graph.callAll_cons_normal _ _ _ _ _
      (Graph.call_topology_normal f fuel s c (h c (List.mem_cons_self _ _)))]
    exact ih _ (fun c hc => h c (List.mem_cons_of_mem _ hc))

/-- C3: no dangling edges.  Starting from the fresh graph, after every call of every
script (every `cs.take k`) both ends of every edge are nodes of the graph, whatever the
layout function does and for every amount of fuel; and a sequence of `addNode`,
`removeNode`, `addEdge`, `removeEdge` calls with arbitrary integer arguments runs to
its end when the layout function does not fail. -/
theorem no_dangling_edges (fuel : Nat) (L : GraphLayout) (cs : List Call) (k : Nat) :
    (Graph.callAll fuel L Graph.new (cs.take k)).graph.m_graph.EdgesLive ∧
    ((∀ c ∈ cs, c.isTopologyCall = true) →
      ∀ f : OgdfGraph → GraphAttributes → GraphAttributes,
        (Graph.callAll (fuel + 1) (GraphLayout.total f) Graph.new (cs.take k)).completion =
          .normal ()) := by
  constructor
  · apply (edgesLiveRules L).toRules.callAll fuel Graph.new (cs.take k)
    intro e he
    cases he
  · intro h f
    exact Graph.callAll_topology_normal f fuel _ _ (fun c hc => h c (List.mem_of_mem_take hc))

/-- C3, witness: `addNode()`, `addNode()`, `addEdge(0, 1)`, `addEdge(0, 5)`,
`removeNode(0)`, `removeEdge(3)` all run, with no dangling edge at the end. -/
theorem no_dangling_edges_witness :
    (∀ c ∈ [Call.addNode undefinedValue, .addNode undefinedValue, .addEdge 0 1, .addEdge 0 5,
        .removeNode 0, .removeEdge 3], c.isTopologyCall = true) ∧
    (Graph.callAll 1 (GraphLayout.total fun _ a => a) Graph.new
      ([Call.addNode undefinedValue, .addNode undefinedValue, .addEdge 0 1, .addEdge 0 5,
        .removeNode 0, .removeEdge 3].take 6)).completion = .normal () :=
  ⟨by decide,
   (no_dangling_edges 0 identityLayout [Call.addNode undefinedValue, .addNode undefinedValue,
      .addEdge 0 1, .addEdge 0 5, .removeNode 0, .removeEdge 3] 6).2 (by decide)
      (fun _ a => a)⟩

/-! ## C10: the counter is never negative -/

theorem Graph.lock_ge_depth (s : Graph) : s.depth ≤ s.m_layoutLock := by
  unfold Graph.depth
  split <;> omega

theorem nonnegRules (L : GraphLayout) :
    MicroRules L fun s s2 _ => 0 ≤ s.depth ∧ s.LockHistoryNonneg →
      s.depth ≤ s2.depth ∧ s2.LockHistoryNonneg where
  refl := fun _ h => ⟨le_refl _, h.2⟩
  stopFuel := fun _ h => ⟨le_refl _, h.2⟩
  stopUndefined := fun _ h => ⟨le_refl _, h.2⟩
  trans := by
    intro s s1 s2 k h1 h2 h
    have a := h1 h
    have b := h2 ⟨le_trans h.1 a.1, a.2⟩
    exact ⟨le_trans a.1 b.1, b.2⟩
  info := fun _ _ _ h => ⟨le_refl _, h.2⟩
  called := fun _ _ h => ⟨le_refl _, h.2⟩
  invalidateLayout := by
    intro s h
    rcases Graph.invalidateLayout_cases L s with ⟨_, e⟩ | ⟨_, a, _, e⟩ | ⟨_, a, _, e⟩ <;>
      rw [e] <;> exact ⟨le_refl _, h.2⟩
  toggle := by
    intro s b hb h
    obtain ⟨h0, hH⟩ := h
    cases b
    · have ha : s.m_autoLayout = true := by
        cases hs : s.m_autoLayout
        · exact absurd hs.symm hb
        · rfl
      simp only [Graph.depth, ha, if_true] at h0
      constructor
      · simp [Graph.depth, Graph.toggled, Graph.setLock, Graph.emit, ha]
      · intro v hv
        have hv2 : v ∈ s.lockHistory ∨ v = s.m_layoutLock + 1 := by
          simpa [Graph.toggled, Graph.setLock, Graph.emit] using hv
        rcases hv2 with hv | hv
        · exact hH v hv
        · omega
    · have ha : s.m_autoLayout = false := by
        cases hs : s.m_autoLayout
        · rfl
        · exact absurd hs.symm hb
      simp only [Graph.depth, ha] at h0
      constructor
      · simp [Graph.depth, Graph.toggled, Graph.setLock, Graph.emit, ha]
      · intro v hv
        have hv2 : v ∈ s.lockHistory ∨ v = s.m_layoutLock - 1 := by
          simpa [Graph.toggled, Graph.setLock, Graph.emit] using hv
        simp at h0
        rcases hv2 with hv | hv
        · exact hH v hv
        · omega
  newNode := fun _ h => ⟨le_refl _, h.2⟩
  delNode := fun _ _ _ _ h => ⟨le_refl _, h.2⟩
  newEdge := fun _ _ _ _ _ _ _ h => ⟨le_refl _, h.2⟩
  delEdge := fun _ _ _ _ h => ⟨le_refl _, h.2⟩
  clear := fun _ h => ⟨le_refl _, h.2⟩
  setNodeAttributes := fun _ _ _ h => ⟨le_refl _, h.2⟩
  leave := by
    intro s s2 h1 h
    obtain ⟨h0, hH⟩ := h
    have hl := s.lock_ge_depth
    have hup : 0 ≤ (s.setLock (s.m_layoutLock + 1)).depth ∧
        (s.setLock (s.m_layoutLock + 1)).LockHistoryNonneg := by
      constructor
      · simp only [Graph.depth, Graph.setLock] at h0 ⊢
        omega
      · intro v hv
        simp only [Graph.setLock, List.mem_append, List.mem_singleton] at hv
        rcases hv with hv | hv
        · exact hH v hv
        · omega
    obtain ⟨hd, hH2⟩ := h1 hup
    have hl2 := s2.lock_ge_depth
    have e1 : (s.setLock (s.m_layoutLock + 1)).depth = s.depth + 1 := by
      simp only [Graph.depth, Graph.setLock]; omega
    have e2 : (s2.setLock (s2.m_layoutLock - 1)).depth = s2.depth - 1 := by
      simp only [Graph.depth, Graph.setLock]; omega
    constructor
    · omega
    · intro v hv
      simp only [Graph.setLock, List.mem_append, List.mem_singleton] at hv
      rcases hv with hv | hv
      · exact hH2 v hv
      · omega
  unwind := by
    intro s s2 k _ h1 h
    obtain ⟨h0, hH⟩ := h
    have hl := s.lock_ge_depth
    have e1 : (s.setLock (s.m_layoutLock + 1)).depth = s.depth + 1 := by
      simp only [Graph.depth, Graph.setLock]; omega
    have hup : 0 ≤ (s.setLock (s.m_layoutLock + 1)).depth ∧
        (s.setLock (s.m_layoutLock + 1)).LockHistoryNonneg := by
      constructor
      · omega
      · intro v hv
        simp only [Graph.setLock, List.mem_append, List.mem_singleton] at hv
        rcases hv with hv | hv
        · exact hH v hv
        · omega
    obtain ⟨hd, hH2⟩ := h1 hup
    exact ⟨by omega, hH2⟩

theorem balanceRules (L : GraphLayout) :
    MicroRules L fun s s2 k =>
      toggles s.trace ≤ toggles s2.trace ∧
      (toggles s2.trace = toggles s.trace → s2.m_autoLayout = s.m_autoLayout) ∧
      (k = .normal () → s2.depth = s.depth) where
  refl := fun _ => ⟨le_refl _, fun _ => rfl, fun _ => rfl⟩
  stopFuel := fun _ => ⟨le_refl _, fun _ => rfl, fun _ => rfl⟩
  stopUndefined := fun _ => ⟨le_refl _, fun _ => rfl, fun _ => rfl⟩
  trans := by
    intro s s1 s2 k h1 h2
    refine ⟨le_trans h1.1 h2.1, fun h => ?_, fun h => ?_⟩
    · have a : toggles s1.trace = toggles s.trace := le_antisymm (h ▸ h2.1) h1.1
      have b : toggles s2.trace = toggles s1.trace := by rw [h, a]
      rw [h2.2.1 b, h1.2.1 a]
    · rw [h2.2.2 h, h1.2.2 rfl]
  info := by
    intro s m a
    simp [Graph.emit, toggles, List.count_append, Graph.depth]
  called := by
    intro s d
    simp [Graph.emit, toggles, List.count_append, Graph.depth]
  invalidateLayout := by
    intro s
    rcases Graph.invalidateLayout_cases L s with ⟨_, e⟩ | ⟨_, a, _, e⟩ | ⟨_, a, _, e⟩ <;>
      rw [e] <;> simp [toggles, List.count_append, Graph.depth]
  toggle := by
    intro s b hb
    cases b
    · have ha : s.m_autoLayout = true := by
        cases hs : s.m_autoLayout
        · exact absurd hs.symm hb
        · rfl
      simp [Graph.toggled, Graph.setLock, Graph.emit, toggles, List.count_append,
        Graph.depth, ha]
    · have ha : s.m_autoLayout = false := by
        cases hs : s.m_autoLayout
        · rfl
        · exact absurd hs.symm hb
      simp [Graph.toggled, Graph.setLock, Graph.emit, toggles, List.count_append,
        Graph.depth, ha]
  newNode := fun _ => ⟨le_refl _, fun _ => rfl, fun _ => rfl⟩
  delNode := fun _ _ _ _ => ⟨le_refl _, fun _ => rfl, fun _ => rfl⟩
  newEdge := fun _ _ _ _ _ _ _ => ⟨le_refl _, fun _ => rfl, fun _ => rfl⟩
  delEdge := fun _ _ _ _ => ⟨le_refl _, fun _ => rfl, fun _ => rfl⟩
  clear := fun _ => ⟨le_refl _, fun _ => rfl, fun _ => rfl⟩
  setNodeAttributes := fun _ _ _ => ⟨le_refl _, fun _ => rfl, fun _ => rfl⟩
  leave := by
    intro s s2 h
    refine ⟨h.1, h.2.1, fun _ => ?_⟩
    have e := h.2.2 rfl
    simp only [Graph.depth, Graph.setLock] at e ⊢
    omega
  unwind := by
    intro s s2 k hk h
    exact ⟨h.1, h.2.1, fun hn => absurd hn hk⟩

/-- C10: the re-entrancy counter is never negative.  (1) For every script run on a fresh
graph (`setAutoLayout` with any arguments, scripts calling back from visitors, nested
bulk iterations), every layout function and every amount of fuel, so at every point an
execution can reach, the counter is non-negative and so is every value ever written to
it.  (2) When an `eachNode` or `eachEdge` call returns and automatic layout was not
toggled during it (no `autoLayoutChanged` signal was sent), the counter is back to its
value before the call.  An execution is followed up to its end, or up to the point
where a loop would follow `succ()` of an element its visitor deleted, which C++ leaves
undefined. -/
theorem counter_never_negative (fuel : Nat) (L : GraphLayout) (cs : List Call) (s : Graph)
    (callback : QJSValue) :
    (0 ≤ (Graph.callAll fuel L Graph.new cs).graph.m_layoutLock ∧
      ∀ v ∈ (Graph.callAll fuel L Graph.new cs).graph.lockHistory, 0 ≤ v) ∧
    ((Graph.eachNode fuel L s callback).completion = .normal () →
      toggles (Graph.eachNode fuel L s callback).graph.trace = toggles s.trace →
      (Graph.eachNode fuel L s callback).graph.m_layoutLock = s.m_layoutLock) ∧
    ((Graph.eachEdge fuel L s callback).completion = .normal () →
      toggles (Graph.eachEdge fuel L s callback).graph.trace = toggles s.trace →
      (Graph.eachEdge fuel L s callback).graph.m_layoutLock = s.m_layoutLock) := by
  refine ⟨?_, ?_, ?_⟩
  · have h := (nonnegRules L).toRules.callAll fuel Graph.new cs
      ⟨by decide, fun v hv => nomatch hv⟩
    have h0 : Graph.new.depth = 0 := by decide
    have hl := (Graph.callAll fuel L Graph.new cs).graph.lock_ge_depth
    exact ⟨by omega, h.2⟩
  · intro hn ht
    have h := ((balanceRules L).toRules.sound fuel).2.2.2.1 s callback
    have ha := h.2.1 ht
    have hd := h.2.2 hn
    simp only [Graph.depth, ha] at hd
    omega
  · intro hn ht
    have h := ((balanceRules L).toRules.sound fuel).2.2.2.2.2.1 s callback
    have ha := h.2.1 ht
    have hd := h.2.2 hn
    simp only [Graph.depth, ha] at hd
    omega

/-- C10, witness: `eachNode` over `twoNodes` whose visitor runs a nested `eachNode`
that modifies node 0 returns, toggles nothing, and leaves the counter at 0. -/
theorem counter_never_negative_witness :
    (Graph.eachNode 12 identityLayout twoNodes (.function (fun _ => [.eachNode (.function
        (fun _ => [.modifyNode 0 (.data (.object []))]) id)]) id)).completion = .normal () ∧
    toggles (Graph.eachNode 12 identityLayout twoNodes (.function (fun _ => [.eachNode
        (.function (fun _ => [.modifyNode 0 (.data (.object []))]) id)]) id)).graph.trace =
      toggles twoNodes.trace ∧
    (Graph.eachNode 12 identityLayout twoNodes (.function (fun _ => [.eachNode (.function
        (fun _ => [.modifyNode 0 (.data (.object []))]) id)]) id)).graph.m_layoutLock =
      twoNodes.m_layoutLock :=
  ⟨by decide, by decide,
   (counter_never_negative 12 identityLayout [] twoNodes (.function (fun _ => [.eachNode
      (.function (fun _ => [.modifyNode 0 (.data (.object []))]) id)]) id)).2.1
      (by decide) (by decide)⟩

/-! ## C1: batching by the automatic-layout toggle -/

theorem Graph.call_mutation_locked (L : GraphLayout) (fuel : Nat) (s : Graph) (c : Call)
    (hc : c.isMutation = true) (hl : s.m_layoutLock ≠ 0) :
    (Graph.call (fuel + 2) L s c).completion = .normal () ∧
    (Graph.call (fuel + 2) L s c).graph.m_layoutLock = s.m_layoutLock ∧
    (Graph.call (fuel + 2) L s c).graph.m_autoLayout = s.m_autoLayout ∧
    layoutRuns (Graph.call (fuel + 2) L s c).graph.trace = layoutRuns s.trace ∧
    nodeNotifications (Graph.call (fuel + 2) L s c).graph.trace = nodeNotifications s.trace ∧
    edgeNotifications (Graph.call (fuel + 2) L s c).graph.trace = edgeNotifications s.trace := by
  cases c with
  | addNode a =>
    simp [Graph.call, Graph.discard, Graph.addNode, Graph.invalidateLayout,
      Graph.setNodeAttributes, Outcome.andThen, hl]
  | removeNode i =>
    cases h : NodeModel.node s.m_graph i <;>
      simp [Graph.call, Graph.removeNode, Graph.invalidateLayout, Graph.emit, h, hl,
        layoutRuns, nodeNotifications, edgeNotifications, List.count_append]
  | addEdge a b =>
    cases h1 : NodeModel.node s.m_graph a <;> cases h2 : NodeModel.node s.m_graph b <;>
      simp [Graph.call, Graph.discard, Graph.addEdge, Graph.invalidateLayout, Graph.emit,
        Outcome.andThen, h1, h2, hl, layoutRuns, nodeNotifications, edgeNotifications,
        List.count_append]
  | removeEdge i =>
    cases h : EdgeModel.edge s.m_graph i <;>
      simp [Graph.call, Graph.removeEdge, Graph.invalidateLayout, Graph.emit, h, hl,
        layoutRuns, nodeNotifications, edgeNotifications, List.count_append]
  | modifyNode i o =>
    cases h : NodeModel.node s.m_graph i with
    | none =>
      simp [Graph.call, Graph.modifyNode, Graph.emit, h, layoutRuns, nodeNotifications,
        edgeNotifications, List.count_append]
    | some v =>
      by_cases ho : o.isObject = true
      · simp [Graph.call, Graph.modifyNode, Graph.invalidateLayout, Graph.setNodeAttributes,
          h, ho, hl]
      · have hcall : o.isCallable = false := by
          cases hh : o.isCallable
          · rfl
          · exact absurd (QJSValue.isObject_of_isCallable hh) ho
        simp [Graph.call, Graph.modifyNode, Graph.emit, h, ho, hcall, layoutRuns,
          nodeNotifications, edgeNotifications, List.count_append]
  | eachNode cb => cases hc
  | eachEdge cb => cases hc
  | clear => cases hc
  | setAutoLayout b => cases hc

theorem Graph.callAll_mutations_locked (L : GraphLayout) (fuel : Nat) (muts : List Call) :
    ∀ s : Graph, (∀ c ∈ muts, c.isMutation = true) → s.m_layoutLock ≠ 0 →
      (Graph.callAll (fuel + 2) L s muts).completion = .normal () ∧
      (Graph.callAll (fuel + 2) L s muts).graph.m_layoutLock = s.m_layoutLock ∧
      (Graph.callAll (fuel + 2) L s muts).graph.m_autoLayout = s.m_autoLayout ∧
      layoutRuns (Graph.callAll (fuel + 2) L s muts).graph.trace = layoutRuns s.trace ∧
      nodeNotifications (Graph.callAll (fuel + 2) L s muts).graph.trace =
        nodeNotifications s.trace ∧
      edgeNotifications (Graph.callAll (fuel + 2) L s muts).graph.trace =
        edgeNotifications s.trace := by
  induction muts with
  | nil => intro s _ _; exact ⟨rfl, rfl, rfl, rfl, rfl, rfl⟩
  | cons c cs ih =>
    intro s h hl
    obtain ⟨h1, h2, h3, h4, h5, h6⟩ :=
      Graph.call_mutation_locked L fuel s c (h c (List.mem_cons_self _ _)) hl
    rw [Graph.callAll_cons_normal _ _ _ _ _ h1]
    obtain ⟨k1, k2, k3, k4, k5, k6⟩ :=
      ih _ (fun c hc => h c (List.mem_cons_of_mem _ hc)) (by rw [h2]; exact hl)
    exact ⟨k1, k2.trans h2, k3.trans h3, k4.trans h4, k5.trans h5, k6.trans h6⟩

/-- C1: batching by the automatic-layout toggle.  On a fresh graph, after
`setAutoLayout(false)` every sequence `muts` of K mutations (`addNode`, `removeNode`,
`addEdge`, `removeEdge`, `modifyNode`, any arguments) runs to its end with no layout
run and no view notification since the graph was made; `setAutoLayout(true)` then adds
to the trace its signal, one layout run, one notification of the node view and one of
the edge view, so that the whole batch has exactly one of each. -/
theorem batching_by_toggle (f : OgdfGraph → GraphAttributes → GraphAttributes) (fuel : Nat)
    (muts : List Call) (h : ∀ c ∈ muts, c.isMutation = true) :
    (Graph.setAutoLayout (GraphLayout.total f) Graph.new false).completion = .normal () ∧
    (batchBefore (GraphLayout.total f) (fuel + 2) muts).completion = .normal () ∧
    layoutRuns (batchBefore (GraphLayout.total f) (fuel + 2) muts).graph.trace = 0 ∧
    nodeNotifications (batchBefore (GraphLayout.total f) (fuel + 2) muts).graph.trace = 0 ∧
    edgeNotifications (batchBefore (GraphLayout.total f) (fuel + 2) muts).graph.trace = 0 ∧
    (batchAfter (GraphLayout.total f) (fuel + 2) muts).completion = .normal () ∧
    (batchAfter (GraphLayout.total f) (fuel + 2) muts).graph.trace =
      (batchBefore (GraphLayout.total f) (fuel + 2) muts).graph.trace ++
        [.autoLayoutChanged, .layoutRun, .nodesChanged, .edgesChanged] ∧
    layoutRuns (batchAfter (GraphLayout.total f) (fuel + 2) muts).graph.trace = 1 ∧
    nodeNotifications (batchAfter (GraphLayout.total f) (fuel + 2) muts).graph.trace = 1 ∧
    edgeNotifications (batchAfter (GraphLayout.total f) (fuel + 2) muts).graph.trace = 1 := by
  have e0 : Graph.setAutoLayout (GraphLayout.total f) Graph.new false =
      ⟨{ Graph.new with m_autoLayout := false, m_layoutLock := 1, lockHistory := [1],
                        trace := [.autoLayoutChanged] }, .normal ()⟩ := by
    simp [Graph.setAutoLayout, Graph.new, Graph.invalidateLayout, Graph.setLock, Graph.emit]
  obtain ⟨k1, k2, k3, k4, k5, k6⟩ := Graph.callAll_mutations_locked (GraphLayout.total f) fuel
    muts (Graph.setAutoLayout (GraphLayout.total f) Graph.new false).graph h
    (by rw [e0]; decide)
  have t0 : (Graph.setAutoLayout (GraphLayout.total f) Graph.new false).graph.trace =
      [.autoLayoutChanged] := by rw [e0]
  have l0 : (Graph.setAutoLayout (GraphLayout.total f) Graph.new false).graph.m_layoutLock =
      1 := by rw [e0]
  have a0 : (Graph.setAutoLayout (GraphLayout.total f) Graph.new false).graph.m_autoLayout =
      false := by rw [e0]
  rw [t0] at k4 k5 k6
  rw [l0] at k2
  rw [a0] at k3
  have r4 : layoutRuns (batchBefore (GraphLayout.total f) (fuel + 2) muts).graph.trace = 0 := by
    rw [batchBefore, k4]; decide
  have r5 : nodeNotifications (batchBefore (GraphLayout.total f) (fuel + 2) muts).graph.trace =
      0 := by
    rw [batchBefore, k5]; decide
  have r6 : edgeNotifications (batchBefore (GraphLayout.total f) (fuel + 2) muts).graph.trace =
      0 := by
    rw [batchBefore, k6]; decide
  have after : batchAfter (GraphLayout.total f) (fuel + 2) muts =
      ⟨{ (batchBefore (GraphLayout.total f) (fuel + 2) muts).graph with
          m_autoLayout := true, m_layoutLock := 0, m_layoutValid := true,
          m_attributes := f (batchBefore (GraphLayout.total f) (fuel + 2) muts).graph.m_graph
            (batchBefore (GraphLayout.total f) (fuel + 2) muts).graph.m_attributes,
          lockHistory := (batchBefore (GraphLayout.total f) (fuel + 2) muts).graph.lockHistory
            ++ [0],
          trace := (batchBefore (GraphLayout.total f) (fuel + 2) muts).graph.trace ++
            [.autoLayoutChanged, .layoutRun, .nodesChanged, .edgesChanged] }, .normal ()⟩ := by
    have k2b : (batchBefore (GraphLayout.total f) (fuel + 2) muts).graph.m_layoutLock = 1 := k2
    have k3b : (batchBefore (GraphLayout.total f) (fuel + 2) muts).graph.m_autoLayout = false :=
      k3
    simp [batchAfter, Graph.setAutoLayout, Graph.invalidateLayout, GraphLayout.total,
      Graph.setLock, Graph.emit, k2b, k3b]
  refine ⟨by rw [e0], k1, r4, r5, r6, by rw [after], by rw [after], ?_, ?_, ?_⟩
  · rw [after]
    simp only [layoutRuns] at r4 ⊢
    rw [List.count_append, r4]; decide
  · rw [after]
    simp only [nodeNotifications] at r5 ⊢
    rw [List.count_append, r5]; decide
  · rw [after]
    simp only [edgeNotifications] at r6 ⊢
    rw [List.count_append, r6]; decide

/-- C1, witness: the scenario of the spec, `setAutoLayout(false)`, five `addNode()`
calls, `setAutoLayout(true)`: no layout run before the last call, one after it. -/
theorem batching_by_toggle_witness :
    (∀ c ∈ List.replicate 5 (Call.addNode undefinedValue), c.isMutation = true) ∧
    layoutRuns (batchBefore (GraphLayout.total fun _ a => a) 2
      (List.replicate 5 (Call.addNode undefinedValue))).graph.trace = 0 ∧
    layoutRuns (batchAfter (GraphLayout.total fun _ a => a) 2
      (List.replicate 5 (Call.addNode undefinedValue))).graph.trace = 1 :=
  ⟨by decide,
   (batching_by_toggle (fun _ a => a) 0 (List.replicate 5 (Call.addNode undefinedValue))
      (by decide)).2.2.1,
   (batching_by_toggle (fun _ a => a) 0 (List.replicate 5 (Call.addNode undefinedValue))
      (by decide)).2.2.2.2.2.2.2.1⟩

/-! ## The validity flag under the other mutations -/

/-- At a nonzero counter a mutation that reports no error (its trace is unchanged)
leaves the validity flag false: `addNode`, `removeNode`, `addEdge`, `removeEdge` and
`modifyNode` all end with `invalidateLayout`. -/
theorem Graph.call_mutation_clears_flag (L : GraphLayout) (fuel : Nat) (s : Graph) (c : Call)
    (hc : c.isMutation = true) (hl : s.m_layoutLock ≠ 0)
    (ht : (Graph.call (fuel + 2) L s c).graph.trace = s.trace) :
    (Graph.call (fuel + 2) L s c).graph.m_layoutValid = false := by
  cases c with
  | addNode a =>
    simp [Graph.call, Graph.discard, Graph.addNode, Graph.invalidateLayout,
      Graph.setNodeAttributes, Outcome.andThen, hl]
  | removeNode i =>
    cases h : NodeModel.node s.m_graph i with
    | none => simp [Graph.call, Graph.removeNode, Graph.emit, h] at ht
    | some v => simp [Graph.call, Graph.removeNode, Graph.invalidateLayout, h, hl]
  | addEdge a b =>
    cases h1 : NodeModel.node s.m_graph a with
    | none => simp [Graph.call, Graph.discard, Graph.addEdge, Graph.emit, Outcome.andThen, h1] at ht
    | some v1 =>
      cases h2 : NodeModel.node s.m_graph b with
      | none =>
        simp [Graph.call, Graph.discard, Graph.addEdge, Graph.emit, Outcome.andThen, h1, h2] at ht
      | some v2 =>
        simp [Graph.call, Graph.discard, Graph.addEdge, Graph.invalidateLayout,
          Outcome.andThen, h1, h2, hl]
  | removeEdge i =>
    cases h : EdgeModel.edge s.m_graph i with
    | none => simp [Graph.call, Graph.removeEdge, Graph.emit, h] at ht
    | some e => simp [Graph.call, Graph.removeEdge, Graph.invalidateLayout, h, hl]
  | modifyNode i o =>
    cases h : NodeModel.node s.m_graph i with
    | none => simp [Graph.call, Graph.modifyNode, Graph.emit, h] at ht
    | some v =>
      by_cases ho : o.isObject = true
      · simp [Graph.call, Graph.modifyNode, Graph.invalidateLayout, Graph.setNodeAttributes,
          h, ho, hl]
      · have hcall : o.isCallable = false := by
          cases hh : o.isCallable
          · rfl
          · exact absurd (QJSValue.isObject_of_isCallable hh) ho
        simp [Graph.call, Graph.modifyNode, Graph.emit, h, ho, hcall] at ht
  | eachNode cb => cases hc
  | eachEdge cb => cases hc
  | clear => cases hc
  | setAutoLayout b => cases hc

theorem flagRules (L : GraphLayout) :
    MicroRules L fun s s2 _ =>
      nodeNotifications s.trace ≤ nodeNotifications s2.trace ∧
      (s.m_layoutValid = false → s2.m_layoutValid = true →
        nodeNotifications s.trace < nodeNotifications s2.trace) where
  refl := fun s => ⟨le_refl _, fun h1 h2 => by rw [h1] at h2; cases h2⟩
  stopFuel := fun s => ⟨le_refl _, fun h1 h2 => by rw [h1] at h2; cases h2⟩
  stopUndefined := fun s => ⟨le_refl _, fun h1 h2 => by rw [h1] at h2; cases h2⟩
  trans := by
    intro s s1 s2 k h1 h2
    refine ⟨le_trans h1.1 h2.1, fun hs hs2 => ?_⟩
    cases hv : s1.m_layoutValid
    · exact lt_of_le_of_lt h1.1 (h2.2 hv hs2)
    · exact lt_of_lt_of_le (h1.2 hs hv) h2.1
  info := by
    intro s m a
    exact ⟨by simp [Graph.emit, nodeNotifications, List.count_append],
      fun h1 h2 => by simp [Graph.emit, h1] at h2⟩
  called := by
    intro s d
    exact ⟨by simp [Graph.emit, nodeNotifications, List.count_append],
      fun h1 h2 => by simp [Graph.emit, h1] at h2⟩
  invalidateLayout := by
    intro s
    rcases Graph.invalidateLayout_cases L s with ⟨_, e⟩ | ⟨_, a, _, e⟩ | ⟨_, a, _, e⟩ <;>
      rw [e] <;> simp [nodeNotifications, List.count_append]
  toggle := by
    intro s b _
    cases b <;>
      exact ⟨by simp [Graph.toggled, Graph.setLock, Graph.emit, nodeNotifications,
        List.count_append], fun h1 h2 => by
          simp [Graph.toggled, Graph.setLock, Graph.emit, h1] at h2⟩
  newNode := fun s => ⟨le_refl _, fun h1 h2 => by simp [h1] at h2⟩
  delNode := fun s _ _ _ => ⟨le_refl _, fun h1 h2 => by simp [h1] at h2⟩
  newEdge := fun s _ _ _ _ _ _ => ⟨le_refl _, fun h1 h2 => by simp [h1] at h2⟩
  delEdge := fun s _ _ _ => ⟨le_refl _, fun h1 h2 => by simp [h1] at h2⟩
  clear := fun s => ⟨le_refl _, fun h1 h2 => by simp [h1] at h2⟩
  setNodeAttributes := fun s _ _ =>
    ⟨le_refl _, fun h1 h2 => by simp [Graph.setNodeAttributes, h1] at h2⟩
  leave := fun _ _ h => h
  unwind := fun _ _ _ _ h => h

/-- In every facade call, scripts included, the validity flag goes from false to true
only if a layout run completed during the call (the node view was notified). -/
theorem Graph.flag_set_only_by_layout (fuel : Nat) (L : GraphLayout) (s : Graph) (c : Call)
    (h1 : s.m_layoutValid = false) (h2 : (Graph.call fuel L s c).graph.m_layoutValid = true) :
    nodeNotifications s.trace < nodeNotifications (Graph.call fuel L s c).graph.trace :=
  (((flagRules L).toRules.sound fuel).1 s c).2 h1 h2

/-! ## Well-formedness of reachable graphs -/

theorem wellFormedRules (L : GraphLayout) :
    MicroRules L fun s s2 _ => s.m_graph.WellFormed → s2.m_graph.WellFormed where
  refl := fun _ h => h
  stopFuel := fun _ h => h
  stopUndefined := fun _ h => h
  trans := fun _ _ _ _ h1 h2 h => h2 (h1 h)
  info := fun _ _ _ h => h
  called := fun _ _ h => h
  invalidateLayout := by
    intro s h
    rcases Graph.invalidateLayout_cases L s with ⟨_, e⟩ | ⟨_, a, _, e⟩ | ⟨_, a, _, e⟩ <;>
      rw [e] <;> exact h
  toggle := by
    intro s b _ h
    cases b <;> exact h
  newNode := by
    intro s h
    obtain ⟨h1, h2, h3, h4⟩ := h
    refine ⟨?_, ?_, h3, h4⟩
    · simp only [OgdfGraph.newNode]
      refine List.Nodup.append h1 (List.nodup_singleton _) ?_
      intro x hx hx2
      have := h2 x hx
      simp only [List.mem_singleton] at hx2
      omega
    · intro n hn
      simp only [OgdfGraph.newNode, List.mem_append, List.mem_singleton] at hn ⊢
      rcases hn with hn | hn
      · have := h2 n hn; omega
      · omega
  delNode := by
    intro s i v _ h
    obtain ⟨h1, h2, h3, h4⟩ := h
    refine ⟨h1.filter _, fun n hn => h2 n (List.mem_of_mem_filter hn),
      h3.sublist ((List.filter_sublist _).map _), fun e he => h4 e (List.mem_of_mem_filter he)⟩
  newEdge := by
    intro s a b v1 v2 _ _ h
    obtain ⟨h1, h2, h3, h4⟩ := h
    refine ⟨h1, h2, ?_, ?_⟩
    · simp only [OgdfGraph.newEdge, List.map_append, List.map_cons, List.map_nil]
      refine List.Nodup.append h3 (List.nodup_singleton _) ?_
      intro x hx hx2
      obtain ⟨e, he, rfl⟩ := List.mem_map.mp hx
      have := h4 e he
      simp only [List.mem_singleton] at hx2
      omega
    · intro e he
      simp only [OgdfGraph.newEdge, List.mem_append, List.mem_singleton] at he ⊢
      rcases he with he | he
      · have := h4 e he; omega
      · subst he; simp
  delEdge := by
    intro s i x _ h
    obtain ⟨h1, h2, h3, h4⟩ := h
    exact ⟨h1, h2, h3.sublist ((List.filter_sublist _).map _),
      fun e he => h4 e (List.mem_of_mem_filter he)⟩
  clear := by
    intro s _
    refine ⟨List.nodup_nil, ?_, List.nodup_nil, ?_⟩
    · intro n hn; cases hn
    · intro e he; cases he
  setNodeAttributes := fun _ _ _ h => h
  leave := fun _ _ h1 h => h1 h
  unwind := fun _ _ _ _ h1 h => h1 h

/-- Every graph a script can reach from the fresh graph is well formed: the indices of
its nodes and of its edges are pairwise distinct. -/
theorem Graph.wellFormed_of_reachable (fuel : Nat) (L : GraphLayout) (cs : List Call) :
    (Graph.callAll fuel L Graph.new cs).graph.m_graph.WellFormed := by
  apply (wellFormedRules L).toRules.callAll fuel Graph.new cs
  refine ⟨List.nodup_nil, ?_, List.nodup_nil, ?_⟩
  · intro n hn; cases hn
  · intro e he; cases he

/-! ## C2: bulk iteration runs the layout once -/

theorem List.dropWhile_stop {α : Type} (p : α → Bool) (v : α) (hv : p v = false) :
    ∀ (pre rest : List α), (∀ x ∈ pre, p x = true) →
      (pre ++ v :: rest).dropWhile p = v :: rest := by
  intro pre
  induction pre with
  | nil => intro rest _; simp [List.dropWhile, hv]
  | cons a pre ih =>
    intro rest h
    have ha : p a = true := h a (List.mem_cons_self _ _)
    simp only [List.cons_append, List.dropWhile, ha]
    exact ih rest (fun x hx => h x (List.mem_cons_of_mem _ hx))

theorem OgdfGraph.succNode_eq (g : OgdfGraph) (pre rest : List Nat) (v : Nat)
    (hn : g.nodes = pre ++ v :: rest) (hd : g.nodes.Nodup) :
    g.succNode ⟨g.clearCount, v⟩ = rest.head?.map fun n => ⟨g.clearCount, n⟩ := by
  have hnp : ∀ x ∈ pre, (fun n => decide (n ≠ v)) x = true := by
    intro x hx
    have : x ≠ v := by
      intro hxv
      subst hxv
      rw [hn] at hd
      exact (List.nodup_append.mp hd).2.2 hx (List.mem_cons_self _ _)
    simpa using this
  unfold OgdfGraph.succNode
  rw [hn, List.dropWhile_stop (fun n => decide (n ≠ v)) v (by simp) pre rest hnp]
  rfl

theorem OgdfGraph.succEdge_eq (g : OgdfGraph) (pre rest : List EdgeElement) (e : EdgeElement)
    (hn : g.edges = pre ++ e :: rest) (hd : (g.edges.map EdgeElement.index).Nodup) :
    g.succEdge ⟨g.clearCount, e.index⟩ = rest.head?.map fun x => ⟨g.clearCount, x.index⟩ := by
  have hnp : ∀ x ∈ pre, (fun x : EdgeElement => decide (x.index ≠ e.index)) x = true := by
    intro x hx
    have : x.index ≠ e.index := by
      intro hxe
      rw [hn, List.map_append, List.map_cons] at hd
      exact (List.nodup_append.mp hd).2.2 (List.mem_map_of_mem _ hx)
        (hxe ▸ List.mem_cons_self _ _)
    simpa using this
  unfold OgdfGraph.succEdge
  rw [hn, List.dropWhile_stop (fun x : EdgeElement => decide (x.index ≠ e.index)) e (by simp)
    pre rest hnp]
  rfl

/-- C14: `clear()` empties the graph without a layout run.  For every state, after
`clear()` the graph has no node and no edge, no index resolves to a node or to an edge,
and the call changes nothing but `m_graph`: the trace (no layout run, no notification),
the counter and the flag are as before. -/
theorem clear_empties_without_layout (s : Graph) (index : Int) :
    Graph.clear s = ⟨{ s with m_graph := s.m_graph.clear }, .normal ()⟩ ∧
    (Graph.clear s).graph.m_graph.nodes = [] ∧
    (Graph.clear s).graph.m_graph.edges = [] ∧
    NodeModel.node (Graph.clear s).graph.m_graph index = none ∧
    EdgeModel.edge (Graph.clear s).graph.m_graph index = none ∧
    (Graph.clear s).graph.trace = s.trace ∧
    layoutRuns (Graph.clear s).graph.trace = layoutRuns s.trace ∧
    nodeNotifications (Graph.clear s).graph.trace = nodeNotifications s.trace ∧
    edgeNotifications (Graph.clear s).graph.trace = edgeNotifications s.trace ∧
    (Graph.clear s).graph.m_layoutLock = s.m_layoutLock := by
  refine ⟨rfl, rfl, rfl, ?_, ?_, rfl, rfl, rfl, rfl, rfl⟩
  · simp [Graph.clear, OgdfGraph.clear, NodeModel.node]
  · simp [Graph.clear, OgdfGraph.clear, EdgeModel.edge]

/-! ## C15: unusable arguments -/

/-- C15: unusable arguments are a no-op.  `eachNode` and `eachEdge` given a value that is
not callable, and `modifyNode` on a live node given a value that is neither an object nor
callable, only report an error: the state is unchanged but for the report in the trace
(nothing is invoked, no layout run, no notification). -/
theorem unusable_argument_is_noop (fuel : Nat) (L : GraphLayout) (s : Graph) (c : QJSValue)
    (index : Int) (v : NodeHandle) :
    (c.isCallable = false →
      Graph.eachNode (fuel + 1) L s c =
        ⟨s.emit (.info "Expected function as first argument" []), .normal ()⟩ ∧
      Graph.eachEdge (fuel + 1) L s c =
        ⟨s.emit (.info "Expected function(index) as first argument" []), .normal ()⟩) ∧
    (NodeModel.node s.m_graph index = some v → c.isObject = false → c.isCallable = false →
      Graph.modifyNode (fuel + 1) L s index c =
        ⟨s.emit (.info "Expected object or function as second argument" []), .normal ()⟩) := by
  refine ⟨fun h => ⟨?_, ?_⟩, fun hv ho hc => ?_⟩
  · simp [Graph.eachNode, h]
  · simp [Graph.eachEdge, h]
  · simp [Graph.modifyNode, hv, ho, hc]

/-- C15, witness: the number 7 is neither callable nor an object; on `twoNodes`
`eachNode(7)` and `modifyNode(0, 7)` only report. -/
theorem unusable_argument_is_noop_witness :
    (QJSValue.data (.number (.val 7))).isCallable = false ∧
    Graph.eachNode 1 failingLayout twoNodes (.data (.number (.val 7))) =
      ⟨twoNodes.emit (.info "Expected function as first argument" []), .normal ()⟩ ∧
    NodeModel.node twoNodes.m_graph 0 = some ⟨0, 0⟩ ∧
    Graph.modifyNode 1 failingLayout twoNodes 0 (.data (.number (.val 7))) =
      ⟨twoNodes.emit (.info "Expected object or function as second argument" []),
        .normal ()⟩ :=
  ⟨rfl,
   ((unusable_argument_is_noop 0 failingLayout twoNodes (.data (.number (.val 7))) 0 ⟨0, 0⟩).1
      rfl).1,
   by decide,
   (unusable_argument_is_noop 0 failingLayout twoNodes (.data (.number (.val 7))) 0 ⟨0, 0⟩).2
      (by decide) rfl rfl⟩

/-! ## C13: `removeNode` -/

theorem Graph.invalidateLayout_graph (L : GraphLayout) (s : Graph) :
    (Graph.invalidateLayout L s).graph.m_graph = s.m_graph := by
  rcases Graph.invalidateLayout_cases L s with ⟨_, e⟩ | ⟨_, a, _, e⟩ | ⟨_, a, _, e⟩ <;> rw [e]

theorem Graph.removeNode_graph (L : GraphLayout) (s : Graph) (index : Int) (v : NodeHandle)
    (hv : NodeModel.node s.m_graph index = some v) :
    (Graph.removeNode L s index).graph.m_graph = s.m_graph.delNode v := by
  simp only [Graph.removeNode, hv]
  exact Graph.invalidateLayout_graph L _

theorem OgdfGraph.length_delNode_edges (edges : List EdgeElement) (n : Nat) :
    (edges.filter fun e => decide (e.source ≠ n ∧ e.target ≠ n)).length +
      (edges.filter fun e => decide (e.source = n ∨ e.target = n)).length = edges.length := by
  have hp : (fun e : EdgeElement => decide (e.source ≠ n ∧ e.target ≠ n)) =
      (fun e : EdgeElement => !(decide (e.source = n ∨ e.target = n))) := by
    funext e
    by_cases hs : e.source = n <;> by_cases ht : e.target = n <;> simp [hs, ht]
  rw [hp]
  have := List.length_eq_length_filter_add (l := edges)
    (fun e : EdgeElement => decide (e.source = n ∨ e.target = n))
  omega

/-- C13: `removeNode` removes the node and exactly its incident edges.  For a live node
index, whatever the layout function does afterwards: the index no longer resolves; the
edges left are those with neither end at the node, in their old order, and their number
plus the number D of incident edges is the old number of edges; no incident edge is
left; every other node index resolves as before and every other edge is still in the
graph, with its ends, and resolves under its old index. -/
theorem removeNode_removes_incident_edges (L : GraphLayout) (s : Graph) (index : Int)
    (v : NodeHandle) (hv : NodeModel.node s.m_graph index = some v) :
    NodeModel.node (Graph.removeNode L s index).graph.m_graph index = none ∧
    (Graph.removeNode L s index).graph.m_graph.nodes =
      s.m_graph.nodes.filter (fun n => n ≠ v.index) ∧
    (Graph.removeNode L s index).graph.m_graph.edges =
      s.m_graph.edges.filter (fun e => e.source ≠ v.index ∧ e.target ≠ v.index) ∧
    (Graph.removeNode L s index).graph.m_graph.edges.length +
      (s.m_graph.incidentEdges v.index).length = s.m_graph.edges.length ∧
    (∀ e ∈ s.m_graph.incidentEdges v.index,
      e ∉ (Graph.removeNode L s index).graph.m_graph.edges) ∧
    (∀ j : Int, j ≠ index →
      NodeModel.node (Graph.removeNode L s index).graph.m_graph j =
        NodeModel.node s.m_graph j) ∧
    (∀ e ∈ s.m_graph.edges, e ∉ s.m_graph.incidentEdges v.index →
      e ∈ (Graph.removeNode L s index).graph.m_graph.edges ∧
      EdgeModel.edge (Graph.removeNode L s index).graph.m_graph (e.index : Int) =
        EdgeModel.edge s.m_graph (e.index : Int)) := by
  obtain ⟨hmem, hidx, _⟩ := NodeModel.node_some hv
  rw [Graph.removeNode_graph L s index v hv]
  refine ⟨?_, rfl, rfl, ?_, ?_, ?_, ?_⟩
  · have h0 : 0 ≤ index := by omega
    have ht : index.toNat = v.index := by omega
    simp [NodeModel.node, OgdfGraph.delNode, ht]
  · exact OgdfGraph.length_delNode_edges s.m_graph.edges v.index
  · intro e he hin
    simp only [OgdfGraph.incidentEdges, List.mem_filter, decide_eq_true_eq] at he
    simp only [OgdfGraph.delNode, List.mem_filter, decide_eq_true_eq] at hin
    rcases he.2 with h | h
    · exact hin.2.1 h
    · exact hin.2.2 h
  · intro j hj
    by_cases h0 : 0 ≤ j
    · have hne : j.toNat ≠ v.index := by omega
      simp [NodeModel.node, OgdfGraph.delNode, h0, hne, List.mem_filter]
    · simp [NodeModel.node, h0]
  · intro e he hni
    have hkeep : e.source ≠ v.index ∧ e.target ≠ v.index := by
      constructor
      · intro h
        exact hni (by simp [OgdfGraph.incidentEdges, he, h])
      · intro h
        exact hni (by simp [OgdfGraph.incidentEdges, he, h])
    have hin : e ∈ (s.m_graph.delNode v).edges := by
      simp only [OgdfGraph.delNode, List.mem_filter, decide_eq_true_eq]
      exact ⟨he, hkeep⟩
    refine ⟨hin, ?_⟩
    have h1 : e.index ∈ (s.m_graph.delNode v).edges.map EdgeElement.index :=
      List.mem_map_of_mem _ hin
    have h2 : e.index ∈ s.m_graph.edges.map EdgeElement.index := List.mem_map_of_mem _ he
    have hc : (s.m_graph.delNode v).clearCount = s.m_graph.clearCount := rfl
    simp [EdgeModel.edge, h1, h2, hc]

/-- C13, witness: the scenario of the spec.  On the empty graph `addNode()` returns 0,
then 1, `addEdge(0, 1)` returns 0, and `removeNode(0)` leaves no edge and the one node of
index 1; index 0 no longer resolves. -/
theorem removeNode_removes_incident_edges_witness :
    (Graph.addNode identityLayout Graph.new undefinedValue).completion = .normal 0 ∧
    (Graph.addNode identityLayout (Graph.addNode identityLayout Graph.new undefinedValue).graph
      undefinedValue).completion = .normal 1 ∧
    (Graph.addEdge identityLayout twoNodes 0 1).completion = .normal 0 ∧
    NodeModel.node twoNodesOneEdge.m_graph 0 = some ⟨0, 0⟩ ∧
    (Graph.removeNode identityLayout twoNodesOneEdge 0).graph.m_graph.edges = [] ∧
    (Graph.removeNode identityLayout twoNodesOneEdge 0).graph.m_graph.nodes = [1] ∧
    NodeModel.node (Graph.removeNode identityLayout twoNodesOneEdge 0).graph.m_graph 0 = none ∧
    NodeModel.node (Graph.removeNode identityLayout twoNodesOneEdge 0).graph.m_graph 1 =
      some ⟨0, 1⟩ :=
  ⟨by decide, by decide, by decide, by decide, by decide, by decide,
   (removeNode_removes_incident_edges identityLayout twoNodesOneEdge 0 ⟨0, 0⟩ (by decide)).1,
   by decide⟩

/-! ## C11: records that give only some fields -/

/-- C11, counterexample: on `oneNodeManual` (counter 1, node 0 with `y = 2`)
`modifyNode(0, {x: 5})` sets `x` to 5 and does not leave `y` at its previous value. -/
theorem partial_record_loses_fields :
    NodeModel.node oneNodeManual.m_graph 0 = some ⟨0, 0⟩ ∧
    oneNodeManual.m_layoutLock = 1 ∧
    oneNodeManual.m_attributes.y 0 = .val 2 ∧
    (Graph.modifyNode 1 identityLayout oneNodeManual 0 onlyX).graph.m_attributes.x 0 = .val 5 ∧
    (Graph.modifyNode 1 identityLayout oneNodeManual 0 onlyX).graph.m_attributes.y 0 ≠
      oneNodeManual.m_attributes.y 0 := by
  decide

/-- C11, amended: at a nonzero counter `modifyNode(i, record)` on a live node replaces all
four fields: a field the record gives takes the given value, a field it does not give
becomes NaN (the number `undefined` converts to), and the shape becomes the rectangle;
the fields of the other nodes stay, no layout is run and the flag ends false. -/
theorem record_replaces_all_fields (fuel : Nat) (L : GraphLayout) (s : Graph) (index : Int)
    (v : NodeHandle) (props : List (String × Double))
    (hv : NodeModel.node s.m_graph index = some v) (hl : s.m_layoutLock ≠ 0) :
    Graph.modifyNode (fuel + 1) L s index (.data (.object props)) =
      ⟨{ s.setNodeAttributes v (.data (.object props)) with m_layoutValid := false },
        .normal ()⟩ ∧
    (s.setNodeAttributes v (.data (.object props))).m_attributes.x v.index =
      (props.lookup "x").getD .nan ∧
    (s.setNodeAttributes v (.data (.object props))).m_attributes.y v.index =
      (props.lookup "y").getD .nan ∧
    (s.setNodeAttributes v (.data (.object props))).m_attributes.width v.index =
      (props.lookup "width").getD .nan ∧
    (s.setNodeAttributes v (.data (.object props))).m_attributes.height v.index =
      (props.lookup "height").getD .nan ∧
    (s.setNodeAttributes v (.data (.object props))).m_attributes.shape v.index = .shRect ∧
    (∀ n, n ≠ v.index →
      (s.setNodeAttributes v (.data (.object props))).m_attributes.x n = s.m_attributes.x n ∧
      (s.setNodeAttributes v (.data (.object props))).m_attributes.y n = s.m_attributes.y n ∧
      (s.setNodeAttributes v (.data (.object props))).m_attributes.width n =
        s.m_attributes.width n ∧
      (s.setNodeAttributes v (.data (.object props))).m_attributes.height n =
        s.m_attributes.height n) := by
  have key : ∀ name : String,
      ((QJSValue.data (.object props)).property name).toNumber =
        (props.lookup name).getD .nan := by
    intro name
    simp only [QJSValue.property]
    cases props.lookup name <;> rfl
  refine ⟨?_, ?_, ?_, ?_, ?_, ?_, ?_⟩
  · simp only [Graph.modifyNode, hv, QJSValue.isObject, if_true]
    exact Graph.invalidateLayout_locked L _ hl
  · simp [Graph.setNodeAttributes, key]
  · simp [Graph.setNodeAttributes, key]
  · simp [Graph.setNodeAttributes, key]
  · simp [Graph.setNodeAttributes, key]
  · simp [Graph.setNodeAttributes]
  · intro n hn
    simp [Graph.setNodeAttributes, Function.update, hn]

/-- C11, amended, witness: on `oneNodeManual` the record `{x: 5}` gives `x = 5` and
`y = NaN` for node 0. -/
theorem record_replaces_all_fields_witness :
    NodeModel.node oneNodeManual.m_graph 0 = some ⟨0, 0⟩ ∧ oneNodeManual.m_layoutLock ≠ 0 ∧
    (oneNodeManual.setNodeAttributes ⟨0, 0⟩ (.data (.object [("x", .val 5)]))).m_attributes.y 0 =
      (List.lookup "y" [("x", Double.val 5)]).getD .nan :=
  ⟨by decide, by decide,
   (record_replaces_all_fields 0 identityLayout oneNodeManual 0 ⟨0, 0⟩ [("x", .val 5)]
      (by decide) (by decide)).2.2.1⟩

/-! ## C12: the identity update -/

/-- C12, the code at the failing input: on `oneNode` (counter 0, node 0 with fields
1, 2, 3, 4) `modifyNode(0, identity)` takes the object branch, because a function is an
object: the function is never invoked (no call in the trace), the four fields are NaN
when the layout runs (the identity layout hands them back as it got them), and there is
one layout run.  The record `nodeAttributes` would hand to the function is `undefined`
anyway, built on a default `QJSValue`. -/
theorem identity_update_writes_nan :
    NodeModel.node oneNode.m_graph 0 = some ⟨0, 0⟩ ∧ oneNode.m_layoutLock = 0 ∧
    oneNode.m_attributes.x 0 = .val 1 ∧ oneNode.m_attributes.y 0 = .val 2 ∧
    oneNode.m_attributes.width 0 = .val 3 ∧ oneNode.m_attributes.height 0 = .val 4 ∧
    identityFunction.isObject = true ∧
    (Graph.modifyNode 1 identityLayout oneNode 0 identityFunction).graph.m_attributes.x 0 = .nan ∧
    (Graph.modifyNode 1 identityLayout oneNode 0 identityFunction).graph.m_attributes.y 0 = .nan ∧
    (Graph.modifyNode 1 identityLayout oneNode 0 identityFunction).graph.m_attributes.width 0 =
      .nan ∧
    (Graph.modifyNode 1 identityLayout oneNode 0 identityFunction).graph.m_attributes.height 0 =
      .nan ∧
    (Graph.modifyNode 1 identityLayout oneNode 0 identityFunction).graph.trace =
      oneNode.trace ++ [.layoutRun, .nodesChanged, .edgesChanged] ∧
    Graph.nodeAttributes oneNode ⟨0, 0⟩ = .undefined := by
  decide

/-! ## C18: the generator wrappers -/

/-- C18, the code at the failing input: `randomSimpleGraph(n, m)` hands `(n, m)` to its
generator, `randomGraph(n, m)` and `randomBiconnectedGraph(n, m)` hand `(m, n)` to
theirs.  With generators that make as many nodes as their first count says, the
wrappers called with `(2, 5)` give 2 nodes, 5 nodes and 5 nodes. -/
theorem generator_arguments_swapped (G : Generators) (L : GraphLayout) (s : Graph) (n m : Int) :
    Graph.randomGraph G L s n m =
      Graph.invalidateLayout L { s with m_graph := G.randomGraph s.m_graph m n } ∧
    Graph.randomBiconnectedGraph G L s n m =
      Graph.invalidateLayout L { s with m_graph := G.randomBiconnectedGraph s.m_graph m n } ∧
    Graph.randomSimpleGraph G L s n m =
      (if (G.randomSimpleGraph s.m_graph n m).2 = true then
        Graph.invalidateLayout L { s with m_graph := (G.randomSimpleGraph s.m_graph n m).1 }
       else
        ⟨({ s with m_graph := (G.randomSimpleGraph s.m_graph n m).1 } : Graph).emit
          (.info "Can not generate a simple graph with nodes and edges" [n, m]), .normal ()⟩) ∧
    (Graph.randomSimpleGraph sampleGenerators identityLayout Graph.new 2 5).graph.m_graph.nodes =
      [0, 1] ∧
    (Graph.randomGraph sampleGenerators identityLayout Graph.new 2 5).graph.m_graph.nodes =
      [0, 1, 2, 3, 4] ∧
    (Graph.randomBiconnectedGraph sampleGenerators identityLayout Graph.new 2 5).graph.m_graph.nodes =
      [0, 1, 2, 3, 4] := by
  exact ⟨rfl, rfl, rfl, by decide, by decide, by decide⟩

/-! ## C16: read-only traversals -/

theorem Graph.jsCall_readOnly (L : GraphLayout) (fuel : Nat) (s : Graph)
    (body : JSData → List Call) (result : JSData → JSData) (hb : ∀ a, body a = [])
    (argument : JSData) :
    Graph.jsCall (fuel + 1) L s (.function body result) argument =
      ⟨s.emit (.called argument), .normal (result argument)⟩ := by
  simp only [Graph.jsCall, hb, List.foldl_nil, Outcome.andThen_normal]

theorem count_visits (e : Event) (he : ∀ a, e ≠ .called a) (l : List Nat) :
    (visits l).count e = 0 := by
  induction l with
  | nil => rfl
  | cons a l ih =>
    simp only [visits, List.map_cons] at ih ⊢
    rw [List.count_cons, ih]
    have := he (.number (.val (a : Int)))
    simp [Ne.symm this]

theorem Graph.forall_nodes_readOnly (L : GraphLayout) (body : JSData → List Call)
    (result : JSData → JSData) (hb : ∀ a, body a = []) :
    ∀ (rest pre : List Nat) (v : Nat) (s : Graph) (fuel : Nat),
      s.m_graph.nodes = pre ++ v :: rest → s.m_graph.nodes.Nodup →
      Graph.forall_nodes (fuel + rest.length + 2) L s (.function body result)
          (some ⟨s.m_graph.clearCount, v⟩) =
        ⟨{ s with trace := s.trace ++ visits (v :: rest) }, .normal ()⟩ := by
  intro rest
  induction rest with
  | nil =>
    intro pre v s fuel hn hd
    have hmem : v ∈ s.m_graph.nodes := by rw [hn]; simp
    show Graph.forall_nodes (fuel + 1 + 1) L s _ _ = _
    simp only [Graph.forall_nodes]
    rw [Graph.jsCall_readOnly L fuel s body result hb, Outcome.andThen_normal]
    have hlive : (s.emit (.called (.number (.val (v : Int))))).m_graph.liveNode
        ⟨s.m_graph.clearCount, v⟩ = true := by
      simp [Graph.emit, OgdfGraph.liveNode, hmem]
    have hsucc : (s.emit (.called (.number (.val (v : Int))))).m_graph.succNode
        ⟨s.m_graph.clearCount, v⟩ = none :=
      OgdfGraph.succNode_eq s.m_graph pre [] v hn hd
    rw [hlive, hsucc]
    simp [Graph.forall_nodes, Graph.emit, visits]
  | cons w rest ih =>
    intro pre v s fuel hn hd
    have hmem : v ∈ s.m_graph.nodes := by rw [hn]; simp
    have hf : fuel + (w :: rest).length + 2 = (fuel + rest.length + 2) + 1 := by
      simp only [List.length_cons]; omega
    rw [hf]
    simp only [Graph.forall_nodes]
    have hf2 : fuel + rest.length + 2 = (fuel + rest.length + 1) + 1 := by omega
    rw [hf2, Graph.jsCall_readOnly L _ s body result hb, Outcome.andThen_normal, ← hf2]
    have hlive : (s.emit (.called (.number (.val (v : Int))))).m_graph.liveNode
        ⟨s.m_graph.clearCount, v⟩ = true := by
      simp [Graph.emit, OgdfGraph.liveNode, hmem]
    have hsucc : (s.emit (.called (.number (.val (v : Int))))).m_graph.succNode
        ⟨s.m_graph.clearCount, v⟩ = some ⟨s.m_graph.clearCount, w⟩ :=
      OgdfGraph.succNode_eq s.m_graph pre (w :: rest) v hn hd
    rw [hlive, hsucc]
    simp only [if_true]
    have hn1 : (s.emit (.called (.number (.val (v : Int))))).m_graph.nodes =
        (pre ++ [v]) ++ w :: rest := by
      show s.m_graph.nodes = _
      rw [hn]; simp
    have := ih (pre ++ [v]) w (s.emit (.called (.number (.val (v : Int))))) fuel hn1 hd
    rw [show (s.emit (.called (.number (.val (v : Int))))).m_graph.clearCount =
      s.m_graph.clearCount from rfl] at this
    rw [this]
    simp [Graph.emit, visits]

theorem Graph.forall_edges_readOnly (L : GraphLayout) (body : JSData → List Call)
    (result : JSData → JSData) (hb : ∀ a, body a = []) :
    ∀ (rest pre : List EdgeElement) (e : EdgeElement) (s : Graph) (fuel : Nat),
      s.m_graph.edges = pre ++ e :: rest → (s.m_graph.edges.map EdgeElement.index).Nodup →
      Graph.forall_edges (fuel + rest.length + 2) L s (.function body result)
          (some ⟨s.m_graph.clearCount, e.index⟩) =
        ⟨{ s with trace := s.trace ++ visits ((e :: rest).map EdgeElement.index) },
          .normal ()⟩ := by
  intro rest
  induction rest with
  | nil =>
    intro pre e s fuel hn hd
    have hmem : e ∈ s.m_graph.edges := by rw [hn]; simp
    show Graph.forall_edges (fuel + 1 + 1) L s _ _ = _
    simp only [Graph.forall_edges]
    rw [Graph.jsCall_readOnly L fuel s body result hb, Outcome.andThen_normal]
    have hlive : (s.emit (.called (.number (.val (e.index : Int))))).m_graph.liveEdge
        ⟨s.m_graph.clearCount, e.index⟩ = true := by
      simp only [Graph.emit, OgdfGraph.liveEdge, true_and, decide_eq_true_eq]
      exact List.mem_map_of_mem _ hmem
    have hsucc : (s.emit (.called (.number (.val (e.index : Int))))).m_graph.succEdge
        ⟨s.m_graph.clearCount, e.index⟩ = none :=
      OgdfGraph.succEdge_eq s.m_graph pre [] e hn hd
    rw [hlive, hsucc]
    simp [Graph.forall_edges, Graph.emit, visits]
  | cons w rest ih =>
    intro pre e s fuel hn hd
    have hmem : e ∈ s.m_graph.edges := by rw [hn]; simp
    have hf : fuel + (w :: rest).length + 2 = (fuel + rest.length + 2) + 1 := by
      simp only [List.length_cons]; omega
    rw [hf]
    simp only [Graph.forall_edges]
    have hf2 : fuel + rest.length + 2 = (fuel + rest.length + 1) + 1 := by omega
    rw [hf2, Graph.jsCall_readOnly L _ s body result hb, Outcome.andThen_normal, ← hf2]
    have hlive : (s.emit (.called (.number (.val (e.index : Int))))).m_graph.liveEdge
        ⟨s.m_graph.clearCount, e.index⟩ = true := by
      simp only [Graph.emit, OgdfGraph.liveEdge, true_and, decide_eq_true_eq]
      exact List.mem_map_of_mem _ hmem
    have hsucc : (s.emit (.called (.number (.val (e.index : Int))))).m_graph.succEdge
        ⟨s.m_graph.clearCount, e.index⟩ = some ⟨s.m_graph.clearCount, w.index⟩ :=
      OgdfGraph.succEdge_eq s.m_graph pre (w :: rest) e hn hd
    rw [hlive, hsucc]
    simp only [if_true]
    have hn1 : (s.emit (.called (.number (.val (e.index : Int))))).m_graph.edges =
        (pre ++ [e]) ++ w :: rest := by
      show s.m_graph.edges = _
      rw [hn]; simp
    have := ih (pre ++ [e]) w (s.emit (.called (.number (.val (e.index : Int))))) fuel hn1 hd
    rw [show (s.emit (.called (.number (.val (e.index : Int))))).m_graph.clearCount =
      s.m_graph.clearCount from rfl] at this
    rw [this]
    simp [Graph.emit, visits]

/-- The whole loop of `eachNode` with a visitor that makes no facade call. -/
theorem Graph.loop_nodes_readOnly (L : GraphLayout) (body : JSData → List Call)
    (result : JSData → JSData) (hb : ∀ a, body a = []) (s : Graph) (fuel : Nat)
    (hd : s.m_graph.nodes.Nodup) :
    Graph.forall_nodes (fuel + s.m_graph.nodes.length + 1) L s (.function body result)
        s.m_graph.firstNode =
      ⟨{ s with trace := s.trace ++ visits s.m_graph.nodes }, .normal ()⟩ := by
  cases hn : s.m_graph.nodes with
  | nil =>
    simp [OgdfGraph.firstNode, hn, Graph.forall_nodes, visits]
  | cons v rest =>
    have := Graph.forall_nodes_readOnly L body result hb rest [] v s fuel hn hd
    have hf : fuel + (v :: rest).length + 1 = fuel + rest.length + 2 := by
      simp only [List.length_cons]; omega
    rw [hf]
    simpa [OgdfGraph.firstNode, hn] using this

/-- The whole loop of `eachEdge` with a visitor that makes no facade call. -/
theorem Graph.loop_edges_readOnly (L : GraphLayout) (body : JSData → List Call)
    (result : JSData → JSData) (hb : ∀ a, body a = []) (s : Graph) (fuel : Nat)
    (hd : (s.m_graph.edges.map EdgeElement.index).Nodup) :
    Graph.forall_edges (fuel + s.m_graph.edges.length + 1) L s (.function body result)
        s.m_graph.firstEdge =
      ⟨{ s with trace := s.trace ++ visits (s.m_graph.edges.map EdgeElement.index) },
        .normal ()⟩ := by
  cases hn : s.m_graph.edges with
  | nil =>
    simp [OgdfGraph.firstEdge, hn, Graph.forall_edges, visits]
  | cons e rest =>
    have := Graph.forall_edges_readOnly L body result hb rest [] e s fuel hn hd
    have hf : fuel + (e :: rest).length + 1 = fuel + rest.length + 2 := by
      simp only [List.length_cons]; omega
    rw [hf]
    simpa [OgdfGraph.firstEdge, hn] using this

theorem Graph.eachNode_readOnly (L : GraphLayout) (body : JSData → List Call)
    (result : JSData → JSData) (hb : ∀ a, body a = []) (s : Graph) (fuel : Nat)
    (hd : s.m_graph.nodes.Nodup) :
    Graph.eachNode (fuel + s.m_graph.nodes.length + 2) L s (.function body result) =
      (if s.m_layoutValid = true then
        ⟨{ s with lockHistory := s.lockHistory ++ [s.m_layoutLock + 1, s.m_layoutLock],
                  trace := s.trace ++ visits s.m_graph.nodes }, .normal ()⟩
       else Graph.invalidateLayout L
        { s with lockHistory := s.lockHistory ++ [s.m_layoutLock + 1, s.m_layoutLock],
                 trace := s.trace ++ visits s.m_graph.nodes }) := by
  have hf : fuel + s.m_graph.nodes.length + 2 = (fuel + s.m_graph.nodes.length + 1) + 1 := by
    omega
  rw [hf]
  simp only [Graph.eachNode]
  rw [if_pos (by rfl)]
  have loop := Graph.loop_nodes_readOnly L body result hb (s.setLock (s.m_layoutLock + 1)) fuel hd
  have hg : (s.setLock (s.m_layoutLock + 1)).m_graph = s.m_graph := rfl
  rw [hg] at loop
  rw [hg, loop, Outcome.andThen_normal]
  cases hv : s.m_layoutValid <;> simp [Graph.setLock, hv]

theorem Graph.eachEdge_readOnly (L : GraphLayout) (body : JSData → List Call)
    (result : JSData → JSData) (hb : ∀ a, body a = []) (s : Graph) (fuel : Nat)
    (hd : (s.m_graph.edges.map EdgeElement.index).Nodup) :
    Graph.eachEdge (fuel + s.m_graph.edges.length + 2) L s (.function body result) =
      (if s.m_layoutValid = true then
        ⟨{ s with lockHistory := s.lockHistory ++ [s.m_layoutLock + 1, s.m_layoutLock],
                  trace := s.trace ++ visits (s.m_graph.edges.map EdgeElement.index) }, .normal ()⟩
       else Graph.invalidateLayout L
        { s with lockHistory := s.lockHistory ++ [s.m_layoutLock + 1, s.m_layoutLock],
                 trace := s.trace ++ visits (s.m_graph.edges.map EdgeElement.index) }) := by
  have hf : fuel + s.m_graph.edges.length + 2 = (fuel + s.m_graph.edges.length + 1) + 1 := by
    omega
  rw [hf]
  simp only [Graph.eachEdge]
  rw [if_pos (by rfl)]
  have loop := Graph.loop_edges_readOnly L body result hb (s.setLock (s.m_layoutLock + 1)) fuel hd
  have hg : (s.setLock (s.m_layoutLock + 1)).m_graph = s.m_graph := rfl
  rw [hg] at loop
  rw [hg, loop, Outcome.andThen_normal]
  cases hv : s.m_layoutValid <;> simp [Graph.setLock, hv]

/-- C16: a read-only traversal costs nothing.  For a visitor that makes no facade call
and a graph whose indices are pairwise distinct (the empty graph included): from a state
whose flag is true, `eachNode` / `eachEdge` return after invoking the visitor once per
node / edge, in list order, with that element's index; nothing else is added to the
trace (no layout run, no notification) and flag, counter, graph and attribute store are
as before.  From a state whose flag is false at counter 0 the same call, the layout not
failing, adds the visits and then exactly one layout run with its notifications. -/
theorem read_only_traversal (f : OgdfGraph → GraphAttributes → GraphAttributes) (fuel : Nat)
    (L : GraphLayout) (s : Graph) (body : JSData → List Call) (result : JSData → JSData)
    (hb : ∀ a, body a = []) :
    (s.m_graph.nodes.Nodup →
      (s.m_layoutValid = true →
        (Graph.eachNode (fuel + s.m_graph.nodes.length + 2) L s (.function body result)).completion = .normal () ∧
        (Graph.eachNode (fuel + s.m_graph.nodes.length + 2) L s (.function body result)).graph.trace = s.trace ++ visits s.m_graph.nodes ∧
        layoutRuns (Graph.eachNode (fuel + s.m_graph.nodes.length + 2) L s (.function body result)).graph.trace = layoutRuns s.trace ∧
        nodeNotifications (Graph.eachNode (fuel + s.m_graph.nodes.length + 2) L s (.function body result)).graph.trace = nodeNotifications s.trace ∧
        edgeNotifications (Graph.eachNode (fuel + s.m_graph.nodes.length + 2) L s (.function body result)).graph.trace = edgeNotifications s.trace ∧
        (Graph.eachNode (fuel + s.m_graph.nodes.length + 2) L s (.function body result)).graph.m_layoutValid = true ∧
        (Graph.eachNode (fuel + s.m_graph.nodes.length + 2) L s (.function body result)).graph.m_layoutLock = s.m_layoutLock ∧
        (Graph.eachNode (fuel + s.m_graph.nodes.length + 2) L s (.function body result)).graph.m_graph = s.m_graph ∧
        (Graph.eachNode (fuel + s.m_graph.nodes.length + 2) L s (.function body result)).graph.m_attributes = s.m_attributes) ∧
      (s.m_layoutValid = false → s.m_layoutLock = 0 →
        (Graph.eachNode (fuel + s.m_graph.nodes.length + 2) (GraphLayout.total f) s
          (.function body result)).completion = .normal () ∧
        (Graph.eachNode (fuel + s.m_graph.nodes.length + 2) (GraphLayout.total f) s
          (.function body result)).graph.trace =
          s.trace ++ visits s.m_graph.nodes ++ [.layoutRun, .nodesChanged, .edgesChanged] ∧
        layoutRuns (Graph.eachNode (fuel + s.m_graph.nodes.length + 2) (GraphLayout.total f) s
          (.function body result)).graph.trace = layoutRuns s.trace + 1)) ∧
    ((s.m_graph.edges.map EdgeElement.index).Nodup →
      (s.m_layoutValid = true →
        (Graph.eachEdge (fuel + s.m_graph.edges.length + 2) L s (.function body result)).completion = .normal () ∧
        (Graph.eachEdge (fuel + s.m_graph.edges.length + 2) L s (.function body result)).graph.trace = s.trace ++ visits (s.m_graph.edges.map EdgeElement.index) ∧
        layoutRuns (Graph.eachEdge (fuel + s.m_graph.edges.length + 2) L s (.function body result)).graph.trace = layoutRuns s.trace ∧
        nodeNotifications (Graph.eachEdge (fuel + s.m_graph.edges.length + 2) L s (.function body result)).graph.trace = nodeNotifications s.trace ∧
        edgeNotifications (Graph.eachEdge (fuel + s.m_graph.edges.length + 2) L s (.function body result)).graph.trace = edgeNotifications s.trace ∧
        (Graph.eachEdge (fuel + s.m_graph.edges.length + 2) L s (.function body result)).graph.m_layoutValid = true ∧
        (Graph.eachEdge (fuel + s.m_graph.edges.length + 2) L s (.function body result)).graph.m_layoutLock = s.m_layoutLock ∧
        (Graph.eachEdge (fuel + s.m_graph.edges.length + 2) L s (.function body result)).graph.m_graph = s.m_graph ∧
        (Graph.eachEdge (fuel + s.m_graph.edges.length + 2) L s (.function body result)).graph.m_attributes = s.m_attributes) ∧
      (s.m_layoutValid = false → s.m_layoutLock = 0 →
        (Graph.eachEdge (fuel + s.m_graph.edges.length + 2) (GraphLayout.total f) s
          (.function body result)).completion = .normal () ∧
        (Graph.eachEdge (fuel + s.m_graph.edges.length + 2) (GraphLayout.total f) s
          (.function body result)).graph.trace =
          s.trace ++ visits (s.m_graph.edges.map EdgeElement.index) ++ [.layoutRun, .nodesChanged, .edgesChanged] ∧
        layoutRuns (Graph.eachEdge (fuel + s.m_graph.edges.length + 2) (GraphLayout.total f) s
          (.function body result)).graph.trace = layoutRuns s.trace + 1)) := by
  constructor
  ·
    intro hd
    have e := fun L => Graph.eachNode_readOnly L body result hb s fuel hd
    constructor
    · intro hv
      rw [e L, if_pos hv]
      refine ⟨rfl, rfl, ?_, ?_, ?_, hv, rfl, rfl, rfl⟩
      · simp only [layoutRuns, List.count_append]
        rw [count_visits .layoutRun (fun a h => nomatch h)]; rfl
      · simp only [nodeNotifications, List.count_append]
        rw [count_visits .nodesChanged (fun a h => nomatch h)]; rfl
      · simp only [edgeNotifications, List.count_append]
        rw [count_visits .edgesChanged (fun a h => nomatch h)]; rfl
    · intro hv h0
      rw [e (GraphLayout.total f), if_neg (by rw [hv]; exact Bool.false_ne_true)]
      have r : Graph.invalidateLayout (GraphLayout.total f)
          { s with lockHistory := s.lockHistory ++ [s.m_layoutLock + 1, s.m_layoutLock],
                   trace := s.trace ++ visits s.m_graph.nodes } =
          ⟨{ s with lockHistory := s.lockHistory ++ [s.m_layoutLock + 1, s.m_layoutLock],
                    m_attributes := f s.m_graph s.m_attributes, m_layoutValid := true,
                    trace := s.trace ++ visits s.m_graph.nodes ++
                      [.layoutRun, .nodesChanged, .edgesChanged] }, .normal ()⟩ := by
        simp [Graph.invalidateLayout, GraphLayout.total, Graph.emit, h0]
      rw [r]
      refine ⟨rfl, rfl, ?_⟩
      simp only [layoutRuns, List.count_append]
      rw [count_visits .layoutRun (fun a h => nomatch h)]; rfl
  ·
    intro hd
    have e := fun L => Graph.eachEdge_readOnly L body result hb s fuel hd
    constructor
    · intro hv
      rw [e L, if_pos hv]
      refine ⟨rfl, rfl, ?_, ?_, ?_, hv, rfl, rfl, rfl⟩
      · simp only [layoutRuns, List.count_append]
        rw [count_visits .layoutRun (fun a h => nomatch h)]; rfl
      · simp only [nodeNotifications, List.count_append]
        rw [count_visits .nodesChanged (fun a h => nomatch h)]; rfl
      · simp only [edgeNotifications, List.count_append]
        rw [count_visits .edgesChanged (fun a h => nomatch h)]; rfl
    · intro hv h0
      rw [e (GraphLayout.total f), if_neg (by rw [hv]; exact Bool.false_ne_true)]
      have r : Graph.invalidateLayout (GraphLayout.total f)
          { s with lockHistory := s.lockHistory ++ [s.m_layoutLock + 1, s.m_layoutLock],
                   trace := s.trace ++ visits (s.m_graph.edges.map EdgeElement.index) } =
          ⟨{ s with lockHistory := s.lockHistory ++ [s.m_layoutLock + 1, s.m_layoutLock],
                    m_attributes := f s.m_graph s.m_attributes, m_layoutValid := true,
                    trace := s.trace ++ visits (s.m_graph.edges.map EdgeElement.index) ++
                      [.layoutRun, .nodesChanged, .edgesChanged] }, .normal ()⟩ := by
        simp [Graph.invalidateLayout, GraphLayout.total, Graph.emit, h0]
      rw [r]
      refine ⟨rfl, rfl, ?_⟩
      simp only [layoutRuns, List.count_append]
      rw [count_visits .layoutRun (fun a h => nomatch h)]; rfl

/-- C16, witness: on `twoNodesOneEdge` (Valid) `eachNode` and `eachEdge` with the identity
function as visitor run no layout; on the fresh, empty graph (flag false, counter 0)
`eachNode` runs it once. -/
theorem read_only_traversal_witness :
    (∀ a : JSData, (fun _ : JSData => ([] : List Call)) a = []) ∧
    (twoNodesOneEdge.m_graph.nodes.Nodup ∧ twoNodesOneEdge.m_layoutValid = true ∧
      (Graph.eachNode (0 + twoNodesOneEdge.m_graph.nodes.length + 2) failingLayout
        twoNodesOneEdge (.function (fun _ => []) id)).graph.trace =
          twoNodesOneEdge.trace ++ visits twoNodesOneEdge.m_graph.nodes) ∧
    ((twoNodesOneEdge.m_graph.edges.map EdgeElement.index).Nodup ∧
      layoutRuns (Graph.eachEdge (0 + twoNodesOneEdge.m_graph.edges.length + 2) failingLayout
        twoNodesOneEdge (.function (fun _ => []) id)).graph.trace =
          layoutRuns twoNodesOneEdge.trace) ∧
    (Graph.new.m_graph.nodes.Nodup ∧ Graph.new.m_layoutValid = false ∧
      Graph.new.m_layoutLock = 0 ∧
      layoutRuns (Graph.eachNode (0 + Graph.new.m_graph.nodes.length + 2)
        (GraphLayout.total fun _ a => a) Graph.new (.function (fun _ => []) id)).graph.trace =
          layoutRuns Graph.new.trace + 1) :=
  ⟨fun _ => rfl,
   ⟨by decide, by decide,
    (((read_only_traversal (fun _ a => a) 0 failingLayout twoNodesOneEdge (fun _ => []) id
      (fun _ => rfl)).1 (by decide)).1 (by decide)).2.1⟩,
   ⟨by decide,
    (((read_only_traversal (fun _ a => a) 0 failingLayout twoNodesOneEdge (fun _ => []) id
      (fun _ => rfl)).2 (by decide)).1 (by decide)).2.2.1⟩,
   ⟨by decide, by decide, by decide,
    (((read_only_traversal (fun _ a => a) 0 failingLayout Graph.new (fun _ => []) id
      (fun _ => rfl)).1 (by decide)).2 (by decide) (by decide)).2.2⟩⟩

/-! ## C17: the toggle, the counter and the flag -/

end QmlOgdf
